import Mathlib

/-!
Verification of the access-control data model in
`src/django/wwwhisper_auth/models.py` (wwwhisper).

The database state is embedded shallowly: the three tables (locations,
users, permissions) become lists of records.  Django ORM queries issued
through the module's `_find` helper keep their `assert count <= 1`
behaviour: a query matching more than one row is an assertion failure,
modelled as the `Except.error` case.  Python string indexing (which can
raise `IndexError`) is modelled by `pyCharAt` returning `Option Char`.
Each mutating operation returns its result together with the post state;
an exception leaves the state unchanged exactly as in the source, where
every `raise` happens before any write.
-/

set_option maxHeartbeats 1000000

deriving instance DecidableEq for Except

/-- Python-style string indexing `s[i]`: a negative index counts from the
end of the string, an out-of-range access raises `IndexError` (here:
`none`). -/
def pyCharAt (s : String) (i : Int) : Option Char :=
  if i < 0 then
    if 0 ≤ (s.length : Int) + i then s.data.get? ((s.length : Int) + i).toNat else none
  else
    s.data.get? i.toNat

/-- Python `s.startswith(t)`. -/
def startswith (s t : String) : Bool :=
  t.data.isPrefixOf s.data

/-- Python `sub in s` for strings: substring containment. -/
def containsSub (sub : List Char) : List Char → Bool
  | [] => sub.isPrefixOf []
  | c :: rest => sub.isPrefixOf (c :: rest) || containsSub sub rest

/-- Python `s.endswith(t)`. -/
def endswith (s t : String) : Bool :=
  t.data.reverse.isPrefixOf s.data.reverse

/-- Python 2 `str.lower()`: ASCII lower-casing, which is exactly what core
`Char.toLower` performs. -/
def pylower (s : String) : String :=
  ⟨s.data.map Char.toLower⟩

/-- A row of Django's `auth_user` table, restricted to the fields
`models.py` uses: the numeric primary key `id`, `username` (holding the
externally visible UUID), `email` and `is_active`. -/
structure User where
  id : Nat
  username : String
  email : String
  is_active : Bool
deriving DecidableEq

/-- A `Location` row: `path` (primary key), `uuid` (externally visible
identifier) and the `open_access` flag (`default=False`). -/
structure Location where
  path : String
  uuid : String
  open_access : Bool
deriving DecidableEq

/-- A `Permission` row: foreign keys to a `Location` (by its primary key
`path`, column `http_location_id`) and to a `User` (by `id`). -/
structure Permission where
  http_location_id : String
  user_id : Nat
deriving DecidableEq

/-- The database state: the three tables. -/
structure DB where
  locations : List Location
  users : List User
  permissions : List Permission
deriving DecidableEq

/-- `_find(model_class, **kwargs)`: filters the table, asserts
`count <= 1`, returns the unique match or `None`.  A failing assertion is
an `AssertionError`, modelled as `Except.error`. -/
def _find {α : Type} (table : List α) (p : α → Bool) : Except String (Option α) :=
  let found := table.filter p
  if found.length ≤ 1 then .ok found.head? else .error "AssertionError"

/-- `CreationException` reasons raised by `UsersCollection.create_item`
and `LocationsCollection.create_item`, one constructor per distinct
`raise CreationException(...)` site. -/
inductive CreationException
  | invalidEmail
  | userExists
  | notCanonical
  | hasFragment
  | hasQuery
  | hasParams
  | locationExists
deriving DecidableEq

/-- Errors escaping a creation call: a `CreationException`, a failed
`_find` assertion, or a Django `full_clean` `ValidationError` (the `path`
field is declared `max_length=2000`, checked by `ValidatedModel.save`). -/
inductive CreateError
  | creation (e : CreationException)
  | assertionError
  | validationError
deriving DecidableEq

/-- Errors escaping permission operations: a Python `LookupError` with its
message, or a failed `_find` assertion. -/
inductive OpError
  | lookupError (msg : String)
  | assertionError
deriving DecidableEq

/-- The row predicate of the ORM query
`_find(Permission, user__username=user_uuid, http_location=self.path)`:
`user__username` joins each permission row to its user row. -/
def can_access_query (db : DB) (l : Location) (user_uuid : String)
    (p : Permission) : Bool :=
  p.http_location_id == l.path &&
  db.users.any (fun u => u.id == p.user_id && u.username == user_uuid)

/-- `Location.can_access(user_uuid)`: `open_access` short-circuits;
otherwise the joined permission query decides the result. -/
def Location.can_access (db : DB) (l : Location) (user_uuid : String) :
    Except String Bool :=
  if l.open_access then .ok true
  else
    match _find db.permissions (can_access_query db l user_uuid) with
    | .error e => .error e
    | .ok perm => .ok perm.isSome

/-- `Location.grant_access(user_uuid)`: looks the user up by username,
raises `LookupError` if absent; returns an existing permission with
`created=False`, otherwise inserts the permission row and returns it with
`created=True`. -/
def Location.grant_access (db : DB) (l : Location) (user_uuid : String) :
    (Except OpError (Permission × Bool)) × DB :=
  match _find db.users (fun u => u.username == user_uuid) with
  | .error _ => (.error .assertionError, db)
  | .ok none => (.error (.lookupError "User not found"), db)
  | .ok (some user) =>
    match _find db.permissions (fun p =>
        p.http_location_id == l.path && p.user_id == user.id) with
    | .error _ => (.error .assertionError, db)
    | .ok (some permission) => (.ok (permission, false), db)
    | .ok none =>
        let permission : Permission := ⟨l.path, user.id⟩
        (.ok (permission, true),
         { db with permissions := db.permissions ++ [permission] })

/-- `Location.get_permission(user_uuid)`: `LookupError` when the user does
not exist or holds no permission for this location; otherwise the
permission row, with no state change. -/
def Location.get_permission (db : DB) (l : Location) (user_uuid : String) :
    Except OpError Permission :=
  match _find db.users (fun u => u.username == user_uuid) with
  | .error _ => .error .assertionError
  | .ok none => .error (.lookupError "User not found.")
  | .ok (some user) =>
    match _find db.permissions (fun p =>
        p.http_location_id == l.path && p.user_id == user.id) with
    | .error _ => .error .assertionError
    | .ok none => .error (.lookupError "User can not access location.")
    | .ok (some permission) => .ok permission

/-- `Location.revoke_access(user_uuid)`: `get_permission` then
`permission.delete()` (deletion of that single row). -/
def Location.revoke_access (db : DB) (l : Location) (user_uuid : String) :
    (Except OpError Unit) × DB :=
  match Location.get_permission db l user_uuid with
  | .error e => (.error e, db)
  | .ok permission =>
      (.ok (), { db with permissions := db.permissions.erase permission })

/-- The local-part character class of the BrowserId email regexp in
`_is_email_valid`: Python 2 `\w` (ASCII letters, digits, underscore) plus
the explicitly listed specials `. ! # $ % & ' * + - / = ? ^ \x60 \x7b | \x7d ~`
(the quote, backquote and brace characters are written by code point). -/
def localChar (c : Char) : Bool :=
  c.isAlpha || c.isDigit ||
  (['_', '.', '!', '#', '$', '%', '&', '*', '+', '-', '/', '=', '?', '^', '~',
    Char.ofNat 39, Char.ofNat 96, Char.ofNat 123, Char.ofNat 124,
    Char.ofNat 125].contains c)

/-- The domain-label character class `[a-z0-9-]` of the email regexp. -/
def domainChar (c : Char) : Bool :=
  c.isLower || c.isDigit || c == '-'

/-- One domain label: non-empty, all characters in `[a-z0-9-]`. -/
def validLabel (l : List Char) : Bool :=
  !l.isEmpty && l.all domainChar

/-- The domain part `[a-z0-9-]+(\.[a-z0-9-]+)+`: at least two non-empty
labels separated by dots.  Splitting on the dot is deterministic because
the label class excludes the dot. -/
def validDomain (l : List Char) : Bool :=
  let labels := l.splitOn '.'
  decide (2 ≤ labels.length) && labels.all validLabel

/-- The anchored regexp body: a non-empty local part, one `@`, and a valid
domain.  Neither character class contains `@`, so a match splits the
string at its unique `@`. -/
def emailCore (l : List Char) : Bool :=
  match l.splitOn '@' with
  | [localPart, domainPart] =>
      (!localPart.isEmpty && localPart.all localChar) && validDomain domainPart
  | _ => false

/-- `_is_email_valid(email)`: `re.match(pattern, email) != None`.  In
Python's `re`, `$` also matches just before a single final newline, so a
string whose last character is a newline matches when the rest does. -/
def _is_email_valid (email : String) : Bool :=
  emailCore email.data ||
  (email.data.getLast? == some '\n' && emailCore email.data.dropLast)

/-- `_encode_email(email)`: lower-case, then validate; a failed validation
raises `ValidationError` (the error case). -/
def _encode_email (email : String) : Except String String :=
  let encoded_email := pylower email
  if _is_email_valid encoded_email then .ok encoded_email
  else .error "Invalid email format."

/-- Modelled from the spec: the module `wwwhisper_auth.url_path` is
imported by `models.py` but its source is not under `src/`.  Spec 4.1:
"`is_canonical`: true iff path starts with `/`, contains no `//`, no
`/./`, no `/../`, and is not otherwise denormalized (e.g. no trailing
`/.`)" — the trailing `/.` and `/..` forms being the denormalized shapes
the infix checks miss. -/
def url_path.is_canonical (path : String) : Bool :=
  startswith path "/" &&
  !containsSub "//".data path.data &&
  !containsSub "/./".data path.data &&
  !containsSub "/../".data path.data &&
  !endswith path "/." &&
  !endswith path "/.."

/-- Modelled from the spec: `url_path.contains_fragment` detects the `#`
component (spec 4.1). -/
def url_path.contains_fragment (path : String) : Bool :=
  path.data.contains '#'

/-- Modelled from the spec: `url_path.contains_query` detects the `?`
component (spec 4.1). -/
def url_path.contains_query (path : String) : Bool :=
  path.data.contains '?'

/-- Modelled from the spec: `url_path.contains_params` detects the `;`
component (spec 4.1). -/
def url_path.contains_params (path : String) : Bool :=
  path.data.contains ';'

/-- `UsersCollection.create_item(email)`: encode the email (invalid →
`CreationException`), reject a duplicate email, otherwise insert a user
with a fresh UUID username, the encoded email and `is_active=True`.  The
fresh `uuid.uuid4()` string and the fresh database primary key are
parameters of the embedding. -/
def UsersCollection.create_item (db : DB) (fresh_uuid : String)
    (fresh_id : Nat) (email : String) : (Except CreateError User) × DB :=
  match _encode_email email with
  | .error _ => (.error (.creation .invalidEmail), db)
  | .ok encoded_email =>
    match _find db.users (fun u => u.email == encoded_email) with
    | .error _ => (.error .assertionError, db)
    | .ok (some _) => (.error (.creation .userExists), db)
    | .ok none =>
        let user : User := ⟨fresh_id, fresh_uuid, encoded_email, true⟩
        (.ok user, { db with users := db.users ++ [user] })

/-- `UsersCollection.find_item_by_email(email)`: a malformed email returns
`None` (the `ValidationError` is caught), otherwise `_find` by the
encoded email. -/
def UsersCollection.find_item_by_email (db : DB) (email : String) :
    Except String (Option User) :=
  match _encode_email email with
  | .error _ => .ok none
  | .ok encoded_email => _find db.users (fun u => u.email == encoded_email)

/-- `Collection.find_item(uuid)` for `UsersCollection`
(`uuid_column_name = 'username'`). -/
def UsersCollection.find_item (db : DB) (uuid : String) :
    Except String (Option User) :=
  _find db.users (fun u => u.username == uuid)

/-- `Collection.find_item(uuid)` for `LocationsCollection`
(`uuid_column_name = 'uuid'`). -/
def LocationsCollection.find_item (db : DB) (uuid : String) :
    Except String (Option Location) :=
  _find db.locations (fun l => l.uuid == uuid)

/-- `Collection.delete_item(uuid)` for users: `False` when no user has the
UUID; otherwise the row is deleted and Django's `ForeignKey` cascade
removes every `Permission` referencing it. -/
def UsersCollection.delete_item (db : DB) (uuid : String) :
    (Except String Bool) × DB :=
  match UsersCollection.find_item db uuid with
  | .error e => (.error e, db)
  | .ok none => (.ok false, db)
  | .ok (some item) =>
      (.ok true, { db with
        users := db.users.erase item,
        permissions := db.permissions.filter (fun p => p.user_id != item.id) })

/-- `Collection.delete_item(uuid)` for locations, with the `Permission`
cascade on the `http_location` foreign key. -/
def LocationsCollection.delete_item (db : DB) (uuid : String) :
    (Except String Bool) × DB :=
  match LocationsCollection.find_item db uuid with
  | .error e => (.error e, db)
  | .ok none => (.ok false, db)
  | .ok (some item) =>
      (.ok true, { db with
        locations := db.locations.erase item,
        permissions := db.permissions.filter
          (fun p => p.http_location_id != item.path) })

/-- `Location.save`: generates `str(uuid.uuid4())` when the `uuid` field
is still empty (Python falsiness of `''`). -/
def Location.save_fresh (fresh_uuid : String) (l : Location) : Location :=
  if l.uuid = "" then { l with uuid := fresh_uuid } else l

/-- `LocationsCollection.create_item(path)`: the four `url_path` checks in
source order, then the duplicate check, then
`Location.objects.create(path=path)` whose `save` assigns the UUID and
whose `full_clean` enforces `max_length=2000` on `path`. -/
def LocationsCollection.create_item (db : DB) (fresh_uuid : String)
    (path : String) : (Except CreateError Location) × DB :=
  if !url_path.is_canonical path then (.error (.creation .notCanonical), db)
  else if url_path.contains_fragment path then (.error (.creation .hasFragment), db)
  else if url_path.contains_query path then (.error (.creation .hasQuery), db)
  else if url_path.contains_params path then (.error (.creation .hasParams), db)
  else
    match _find db.locations (fun l => l.path == path) with
    | .error _ => (.error .assertionError, db)
    | .ok (some _) => (.error (.creation .locationExists), db)
    | .ok none =>
        if 2000 < path.length then (.error .validationError, db)
        else
          let location := Location.save_fresh fresh_uuid ⟨path, "", false⟩
          (.ok location, { db with locations := db.locations ++ [location] })

/-- Lookup of a location by its path, the `_find(Location, path=path)`
query (the spec's `find_by_path`). -/
def LocationsCollection.find_by_path (db : DB) (path : String) :
    Except String (Option Location) :=
  _find db.locations (fun l => l.path == path)

/-- The loop body of `LocationsCollection.find_parent`, with the explicit
accumulator (`longest_matched_location`, `longest_matched_location_len`,
initially `None` and `-1`).  `probed_path[probed_path_len - 1]` is read
unconditionally for each location; the boundary character
`normalized_path[trailing_slash_index]` is read only when the two leading
conjuncts hold and the match is not exact, matching Python's left-to-right
short-circuit evaluation.  Either read can raise `IndexError`. -/
def LocationsCollection.find_parent_loop (normalized_path : String) :
    List Location → Option Location → Int → Except String (Option Location)
  | [], best, _ => .ok best
  | location :: rest, best, best_len =>
    let probed_path := location.path
    let probed_path_len : Int := (probed_path.length : Int)
    match pyCharAt probed_path (probed_path_len - 1) with
    | none => .error "IndexError"
    | some last_char =>
      let trailing_slash_index : Int :=
        if last_char = '/' then probed_path_len - 1 else probed_path_len
      if startswith normalized_path probed_path && best_len < probed_path_len then
        if probed_path_len = (normalized_path.length : Int) then
          LocationsCollection.find_parent_loop normalized_path rest
            (some location) probed_path_len
        else
          match pyCharAt normalized_path trailing_slash_index with
          | none => .error "IndexError"
          | some c =>
            if c = '/' then
              LocationsCollection.find_parent_loop normalized_path rest
                (some location) probed_path_len
            else
              LocationsCollection.find_parent_loop normalized_path rest
                best best_len
      else
        LocationsCollection.find_parent_loop normalized_path rest best best_len

/-- `LocationsCollection.find_parent(normalized_path)`: the linear scan
over `Location.objects.all()`. -/
def LocationsCollection.find_parent (db : DB) (normalized_path : String) :
    Except String (Option Location) :=
  LocationsCollection.find_parent_loop normalized_path db.locations none (-1)

/-- The boundary position used by `find_parent`: the length of the probed
path, or one less when the probed path itself ends in `/`. -/
def trailing_slash_pos (probed_path : String) : Nat :=
  if probed_path.data.getLast? = some '/' then probed_path.length - 1
  else probed_path.length

/-- A probed path is a boundary-respecting prefix of the request path:
the request path starts with it, and the match is exact or the character
at the boundary position is `/`. -/
def boundary_match (normalized_path probed_path : String) : Bool :=
  startswith normalized_path probed_path &&
  (probed_path.length == normalized_path.length ||
   normalized_path.data.get? (trailing_slash_pos probed_path) == some '/')

/-- The database well-formedness invariant maintained by the operations:
locations have pairwise distinct paths and UUIDs, users have pairwise
distinct ids, usernames and emails, and permissions have pairwise
distinct (location, user) pairs. -/
def DB.wf (db : DB) : Prop :=
  db.locations.Pairwise (fun a b => a.path ≠ b.path) ∧
  db.locations.Pairwise (fun a b => a.uuid ≠ b.uuid) ∧
  db.users.Pairwise (fun a b => a.id ≠ b.id) ∧
  db.users.Pairwise (fun a b => a.username ≠ b.username) ∧
  db.users.Pairwise (fun a b => a.email ≠ b.email) ∧
  db.permissions.Pairwise
    (fun a b => a.http_location_id ≠ b.http_location_id ∨ a.user_id ≠ b.user_id)

instance : DecidablePred DB.wf := fun db => by
  unfold DB.wf
  infer_instance

/-! ### Generic lemmas about `_find` and the uniqueness invariants -/

theorem isPrefixOf_eq_take {l1 l2 : List Char} :
    l1.isPrefixOf l2 = true ↔ l2.take l1.length = l1 := by
  induction l1 generalizing l2 with
  | nil => simp [List.isPrefixOf]
  | cons a as ih =>
    cases l2 with
    | nil => simp [List.isPrefixOf]
    | cons b bs =>
      simp only [List.isPrefixOf, Bool.and_eq_true, beq_iff_eq, List.length_cons,
        List.take_succ_cons, List.cons.injEq, ih]
      constructor
      · rintro ⟨h1, h2⟩; exact ⟨h1.symm, h2⟩
      · rintro ⟨h1, h2⟩; exact ⟨h1.symm, h2⟩

theorem length_le_of_isPrefixOf {l1 l2 : List Char}
    (h : l1.isPrefixOf l2 = true) : l1.length ≤ l2.length := by
  have := isPrefixOf_eq_take.mp h
  have hlen := congrArg List.length this
  simp only [List.length_take] at hlen
  omega

theorem startswith_length_le {s t : String} (h : startswith s t = true) :
    t.length ≤ s.length := by
  exact length_le_of_isPrefixOf (h : t.data.isPrefixOf s.data = true)

theorem startswith_data_eq_take {s t : String} (h : startswith s t = true) :
    s.data.take t.length = t.data :=
  isPrefixOf_eq_take.mp h

theorem eq_of_startswith_of_length_eq {s t1 t2 : String}
    (h1 : startswith s t1 = true) (h2 : startswith s t2 = true)
    (hlen : t1.length = t2.length) : t1 = t2 := by
  have e1 := startswith_data_eq_take h1
  have e2 := startswith_data_eq_take h2
  apply String.ext
  rw [← e1, ← e2, hlen]

/-- Two members of a list that is pairwise distinct on a key and that agree
on the key are the same element. -/
theorem eq_of_pairwise_key {α κ : Type} (key : α → κ) {l : List α}
    (h : l.Pairwise (fun a b => key a ≠ key b)) {a b : α}
    (ha : a ∈ l) (hb : b ∈ l) (hk : key a = key b) : a = b := by
  induction l with
  | nil => cases ha
  | cons x xs ih =>
    rcases List.pairwise_cons.mp h with ⟨hx, hxs⟩
    rcases List.mem_cons.mp ha with rfl | ha'
    · rcases List.mem_cons.mp hb with rfl | hb'
      · rfl
      · exact absurd hk (hx b hb')
    · rcases List.mem_cons.mp hb with rfl | hb'
      · exact absurd hk.symm (hx a ha')
      · exact ih hxs ha' hb'

/-- A filter over a list pairwise distinct on a key, with a predicate that
pins the key down, matches at most one row. -/
theorem filter_length_le_one {α κ : Type} (key : α → κ) {l : List α}
    {p : α → Bool} (hpw : l.Pairwise (fun a b => key a ≠ key b))
    (hkey : ∀ a b, p a = true → p b = true → key a = key b) :
    (l.filter p).length ≤ 1 := by
  have hf : (l.filter p).Pairwise (fun a b => key a ≠ key b) := hpw.filter p
  match hm : l.filter p with
  | [] => simp
  | [a] => simp
  | a :: b :: rest =>
    exfalso
    rw [hm] at hf
    rcases List.pairwise_cons.mp hf with ⟨hx, _⟩
    have hpa : p a = true := List.of_mem_filter (hm ▸ List.mem_cons_self a (b :: rest))
    have hpb : p b = true :=
      List.of_mem_filter (hm ▸ List.mem_cons_of_mem a (List.mem_cons_self b rest))
    exact hx b (List.mem_cons_self b rest) (hkey a b hpa hpb)

theorem _find_eq_head {α : Type} {table : List α} {p : α → Bool}
    (h : (table.filter p).length ≤ 1) :
    _find table p = .ok (table.filter p).head? := by
  simp [_find, h]

theorem _find_ok_none {α : Type} {table : List α} {p : α → Bool}
    (h : ∀ a ∈ table, p a = false) : _find table p = .ok none := by
  have : table.filter p = [] := List.filter_eq_nil_iff.mpr (by
    intro a ha
    simp [h a ha])
  simp [_find, this]

theorem _find_ok_some {α : Type} {table : List α} {p : α → Bool} {a : α}
    (hmem : a ∈ table) (hp : p a = true) (hlen : (table.filter p).length ≤ 1) :
    _find table p = .ok (some a) := by
  have hmf : a ∈ table.filter p := List.mem_filter.mpr ⟨hmem, hp⟩
  have : table.filter p = [a] := by
    match hm : table.filter p with
    | [] => rw [hm] at hmf; cases hmf
    | [b] =>
      rw [hm] at hmf
      rcases List.mem_singleton.mp hmf with rfl
      rfl
    | b :: c :: rest => rw [hm] at hlen; simp at hlen
  simp [_find, this]

theorem _find_eq_error {α : Type} {table : List α} {p : α → Bool}
    (h : ¬ (table.filter p).length ≤ 1) :
    _find table p = .error "AssertionError" := by
  simp [_find, h]

theorem _find_mem_of_ok_some {α : Type} {table : List α} {p : α → Bool} {a : α}
    (h : _find table p = .ok (some a)) : a ∈ table ∧ p a = true := by
  by_cases hlen : (table.filter p).length ≤ 1
  · rw [_find_eq_head hlen] at h
    have h2 : (table.filter p).head? = some a := by injection h
    have hmf : a ∈ table.filter p := List.mem_of_mem_head? h2
    exact ⟨(List.mem_filter.mp hmf).1, (List.mem_filter.mp hmf).2⟩
  · rw [_find_eq_error hlen] at h
    cases h

/-! ### `find_parent`: longest boundary-respecting prefix -/

theorem startswith_slash_of_canonical {p : String}
    (h : url_path.is_canonical p = true) : startswith p "/" = true := by
  unfold url_path.is_canonical at h
  simp only [Bool.and_eq_true] at h
  exact h.1.1.1.1.1

theorem data_ne_nil_of_canonical {p : String}
    (h : url_path.is_canonical p = true) : p.data ≠ [] := by
  have hle := startswith_length_le (startswith_slash_of_canonical h)
  intro hnil
  rw [show p.length = p.data.length from rfl, hnil] at hle
  rw [show ("/" : String).length = 1 from rfl] at hle
  simp at hle

theorem pyCharAt_nonneg {s : String} {i : Int} (h : 0 ≤ i) :
    pyCharAt s i = s.data.get? i.toNat := by
  unfold pyCharAt
  rw [if_neg (by omega)]

theorem pyCharAt_last {s : String} (h : s.data ≠ []) :
    pyCharAt s ((s.length : Int) - 1) = some (s.data.getLast h) := by
  have hpos : 1 ≤ s.data.length := List.length_pos.mpr h
  have hlen : s.length = s.data.length := rfl
  rw [pyCharAt_nonneg (by omega)]
  rw [← List.getLast?_eq_getLast s.data h, List.getLast?_eq_getElem? s.data,
    List.get?_eq_getElem?]
  congr 1
  omega

theorem boundary_match_iff {np pp : String} :
    boundary_match np pp = true ↔
      startswith np pp = true ∧
      (pp.length = np.length ∨
       np.data.get? (trailing_slash_pos pp) = some '/') := by
  unfold boundary_match
  simp [Bool.and_eq_true, Bool.or_eq_true, beq_iff_eq]

/-- The running best of the `find_parent` loop, as the source keeps it:
`-1` for `None`, otherwise the matched location's path length. -/
def score : Option Location → Int
  | none => -1
  | some m => (m.path.length : Int)

/-- Invariant of the `find_parent` scan: starting from a consistent
accumulator, the loop succeeds and returns a boundary match of maximal
path length (or the starting accumulator when nothing in the remaining
list matches). -/
theorem find_parent_loop_spec (np : String) (locs : List Location) :
    ∀ (best : Option Location) (best_len : Int),
    (∀ l ∈ locs, l.path.data ≠ []) →
    best_len = score best →
    (∀ m, best = some m → boundary_match np m.path = true) →
    ∃ r, LocationsCollection.find_parent_loop np locs best best_len = .ok r ∧
      (∀ m, r = some m → boundary_match np m.path = true ∧
        (m ∈ locs ∨ best = some m)) ∧
      (∀ l ∈ locs, boundary_match np l.path = true →
        (l.path.length : Int) ≤ score r) ∧
      score best ≤ score r ∧
      ((∀ l ∈ locs, boundary_match np l.path = false) → r = best) := by
  induction locs with
  | nil =>
    intro best best_len hne hlen hbdry
    exact ⟨best, rfl, fun m hm => ⟨hbdry m hm, Or.inr hm⟩,
      fun l hl _ => absurd hl (List.not_mem_nil l), le_refl _, fun _ => rfl⟩
  | cons location rest ih =>
    intro best best_len hne hlen hbdry
    have hloc_ne : location.path.data ≠ [] := hne location (List.mem_cons_self _ _)
    have hrest_ne : ∀ l ∈ rest, l.path.data ≠ [] :=
      fun l hl => hne l (List.mem_cons_of_mem _ hl)
    have hlpos : 1 ≤ location.path.length := List.length_pos.mpr hloc_ne
    have hlast := pyCharAt_last hloc_ne
    by_cases hsw : startswith np location.path = true
    · by_cases hlt : best_len < (location.path.length : Int)
      · by_cases hex : (location.path.length : Int) = (np.length : Int)
        · -- exact-length boundary match: the accumulator is updated
          have hb : boundary_match np location.path = true :=
            boundary_match_iff.mpr ⟨hsw, Or.inl (by exact_mod_cast hex)⟩
          have hstep :
              LocationsCollection.find_parent_loop np (location :: rest) best best_len =
              LocationsCollection.find_parent_loop np rest (some location)
                (location.path.length : Int) := by
            have hlt2 : best_len < (np.length : Int) := hex ▸ hlt
            simp only [LocationsCollection.find_parent_loop]
            rw [hlast]
            simp [hsw, hlt, hlt2, hex]
          obtain ⟨r, hr, h1, h2, h3, h4⟩ :=
            ih (some location) (location.path.length : Int) hrest_ne (by simp [score])
              (by intro m hm; injection hm with hm; subst hm; exact hb)
          refine ⟨r, by rw [hstep]; exact hr, ?_, ?_, ?_, ?_⟩
          · intro m hm
            obtain ⟨hbm, hmem⟩ := h1 m hm
            refine ⟨hbm, ?_⟩
            rcases hmem with h | h
            · exact Or.inl (List.mem_cons_of_mem _ h)
            · injection h with h; subst h; exact Or.inl (List.mem_cons_self _ _)
          · intro l hl hbl
            rcases List.mem_cons.mp hl with rfl | hl'
            · exact le_trans (le_of_eq rfl) h3
            · exact h2 l hl' hbl
          · have hlt2 : score best < score (some location) := by
              rw [← hlen]; exact hlt
            exact le_trans (le_of_lt hlt2) h3
          · intro hall
            have := hall location (List.mem_cons_self _ _)
            rw [hb] at this
            cases this
        · -- non-exact match: the boundary character is read
          have hle := startswith_length_le hsw
          have hlne : location.path.length ≠ np.length := by
            intro he; exact hex (by exact_mod_cast he)
          have hdlen : np.length = np.data.length := rfl
          have htpos : trailing_slash_pos location.path < np.data.length := by
            unfold trailing_slash_pos
            split <;> omega
          obtain ⟨c, hc⟩ : ∃ c, np.data.get? (trailing_slash_pos location.path) = some c :=
            ⟨np.data.get ⟨_, htpos⟩, List.get?_eq_get htpos⟩
          have htsi : (if location.path.data.getLast hloc_ne = '/' then
              (location.path.length : Int) - 1 else (location.path.length : Int)) =
              ((trailing_slash_pos location.path : Nat) : Int) := by
            unfold trailing_slash_pos
            rw [List.getLast?_eq_getLast _ hloc_ne]
            by_cases hch : location.path.data.getLast hloc_ne = '/'
            · rw [if_pos hch, if_pos (by rw [hch])]
              push_cast [Nat.cast_sub hlpos]
              ring
            · rw [if_neg hch, if_neg (fun hx => hch (Option.some.inj hx))]
          have hpc : pyCharAt np (if location.path.data.getLast hloc_ne = '/' then
              (location.path.length : Int) - 1 else (location.path.length : Int)) =
              some c := by
            rw [htsi, pyCharAt_nonneg (by omega)]
            rw [Int.toNat_natCast]
            exact hc
          by_cases hc7 : c = '/'
          · -- boundary character is '/': the accumulator is updated
            have hb : boundary_match np location.path = true :=
              boundary_match_iff.mpr ⟨hsw, Or.inr (by rw [hc, hc7])⟩
            have hstep :
                LocationsCollection.find_parent_loop np (location :: rest) best best_len =
                LocationsCollection.find_parent_loop np rest (some location)
                  (location.path.length : Int) := by
              simp only [LocationsCollection.find_parent_loop]
              rw [hlast]
              simp [hsw, hlt, hex, hpc, hc7]
            obtain ⟨r, hr, h1, h2, h3, h4⟩ :=
              ih (some location) (location.path.length : Int) hrest_ne (by simp [score])
                (by intro m hm; injection hm with hm; subst hm; exact hb)
            refine ⟨r, by rw [hstep]; exact hr, ?_, ?_, ?_, ?_⟩
            · intro m hm
              obtain ⟨hbm, hmem⟩ := h1 m hm
              refine ⟨hbm, ?_⟩
              rcases hmem with h | h
              · exact Or.inl (List.mem_cons_of_mem _ h)
              · injection h with h; subst h; exact Or.inl (List.mem_cons_self _ _)
            · intro l hl hbl
              rcases List.mem_cons.mp hl with rfl | hl'
              · exact le_trans (le_of_eq rfl) h3
              · exact h2 l hl' hbl
            · have hlt2 : score best < score (some location) := by
                rw [← hlen]; exact hlt
              exact le_trans (le_of_lt hlt2) h3
            · intro hall
              have := hall location (List.mem_cons_self _ _)
              rw [hb] at this
              cases this
          · -- boundary character is not '/': the location is skipped
            have hb : boundary_match np location.path = false := by
              rw [Bool.eq_false_iff]
              intro hbt
              rcases (boundary_match_iff.mp hbt).2 with he | hch
              · exact hlne he
              · rw [hc] at hch; exact hc7 (Option.some.inj hch)
            have hstep :
                LocationsCollection.find_parent_loop np (location :: rest) best best_len =
                LocationsCollection.find_parent_loop np rest best best_len := by
              simp only [LocationsCollection.find_parent_loop]
              rw [hlast]
              simp [hsw, hlt, hex, hpc, hc7]
            obtain ⟨r, hr, h1, h2, h3, h4⟩ := ih best best_len hrest_ne hlen hbdry
            refine ⟨r, by rw [hstep]; exact hr, ?_, ?_, h3, ?_⟩
            · intro m hm
              obtain ⟨hbm, hmem⟩ := h1 m hm
              exact ⟨hbm, hmem.imp (List.mem_cons_of_mem _) id⟩
            · intro l hl hbl
              rcases List.mem_cons.mp hl with rfl | hl'
              · rw [hbl] at hb; cases hb
              · exact h2 l hl' hbl
            · intro hall
              exact h4 (fun l hl => hall l (List.mem_cons_of_mem _ hl))
      · -- the running best is at least as long: the location is skipped
        have hstep :
            LocationsCollection.find_parent_loop np (location :: rest) best best_len =
            LocationsCollection.find_parent_loop np rest best best_len := by
          simp only [LocationsCollection.find_parent_loop]
          rw [hlast]
          simp [hlt]
        obtain ⟨r, hr, h1, h2, h3, h4⟩ := ih best best_len hrest_ne hlen hbdry
        refine ⟨r, by rw [hstep]; exact hr, ?_, ?_, h3, ?_⟩
        · intro m hm
          obtain ⟨hbm, hmem⟩ := h1 m hm
          exact ⟨hbm, hmem.imp (List.mem_cons_of_mem _) id⟩
        · intro l hl hbl
          rcases List.mem_cons.mp hl with rfl | hl'
          · have : (l.path.length : Int) ≤ best_len := not_lt.mp hlt
            calc (l.path.length : Int) ≤ best_len := this
              _ = score best := hlen
              _ ≤ score r := h3
          · exact h2 l hl' hbl
        · intro hall
          exact h4 (fun l hl => hall l (List.mem_cons_of_mem _ hl))
    · -- the request path does not start with this location's path
      have hb : boundary_match np location.path = false := by
        rw [Bool.eq_false_iff]
        intro hbt
        exact hsw (boundary_match_iff.mp hbt).1
      have hstep :
          LocationsCollection.find_parent_loop np (location :: rest) best best_len =
          LocationsCollection.find_parent_loop np rest best best_len := by
        simp only [LocationsCollection.find_parent_loop]
        rw [hlast]
        simp [hsw]
      obtain ⟨r, hr, h1, h2, h3, h4⟩ := ih best best_len hrest_ne hlen hbdry
      refine ⟨r, by rw [hstep]; exact hr, ?_, ?_, h3, ?_⟩
      · intro m hm
        obtain ⟨hbm, hmem⟩ := h1 m hm
        exact ⟨hbm, hmem.imp (List.mem_cons_of_mem _) id⟩
      · intro l hl hbl
        rcases List.mem_cons.mp hl with rfl | hl'
        · rw [hbl] at hb; cases hb
        · exact h2 l hl' hbl
      · intro hall
        exact h4 (fun l hl => hall l (List.mem_cons_of_mem _ hl))

theorem boundary_root {p : String} (h : startswith p "/" = true) :
    boundary_match p "/" = true := by
  have htake := startswith_data_eq_take h
  rw [show ("/" : String).length = 1 from rfl] at htake
  rw [show ("/" : String).data = ['/'] from rfl] at htake
  have hget : p.data.get? 0 = some '/' := by
    match hd : p.data with
    | [] => rw [hd] at htake; simp at htake
    | c :: t =>
      rw [hd] at htake
      simp only [List.take_succ_cons, List.take_zero, List.cons.injEq] at htake
      rw [htake.1]
      rfl
  unfold boundary_match
  rw [h, show trailing_slash_pos "/" = 0 from by decide, hget]
  simp

theorem score_cast_le {n : Nat} {r : Option Location}
    (h : (n : Int) ≤ score r) : ∃ m, r = some m ∧ n ≤ m.path.length := by
  match r with
  | none => simp [score] at h; omega
  | some m =>
    refine ⟨m, rfl, ?_⟩
    simp only [score] at h
    exact_mod_cast h

theorem data_ne_nil_of_ne_empty {p : String} (h : p ≠ "") : p.data ≠ [] :=
  fun hd => h (String.ext (hd.trans rfl))

/-- C1: for a store of registered locations with canonical paths and a
normalized request path, `find_parent` returns the location whose path is
the longest boundary-respecting prefix of the request path (unique among
registered locations), and `None` when no registered location is such a
prefix. -/
theorem find_parent_longest_prefix_correct (db : DB) (p : String)
    (hcanon : ∀ l ∈ db.locations, url_path.is_canonical l.path = true)
    (hp : url_path.is_canonical p = true)
    (huniq : db.locations.Pairwise (fun a b => a.path ≠ b.path)) :
    ((∀ l ∈ db.locations, boundary_match p l.path = false) →
      LocationsCollection.find_parent db p = .ok none) ∧
    (∀ l0 ∈ db.locations, boundary_match p l0.path = true →
      ∃ m, LocationsCollection.find_parent db p = .ok (some m) ∧
        m ∈ db.locations ∧ boundary_match p m.path = true ∧
        (∀ l ∈ db.locations, boundary_match p l.path = true →
          l.path.length ≤ m.path.length) ∧
        (∀ l ∈ db.locations, boundary_match p l.path = true →
          l.path.length = m.path.length → l = m)) := by
  obtain ⟨r, hr, h1, h2, h3, h4⟩ :=
    find_parent_loop_spec p db.locations none (-1)
      (fun l hl => data_ne_nil_of_canonical (hcanon l hl)) rfl
      (by intro m hm; cases hm)
  constructor
  · intro hall
    rw [show LocationsCollection.find_parent db p =
      LocationsCollection.find_parent_loop p db.locations none (-1) from rfl, hr,
      h4 hall]
  · intro l0 hl0 hb0
    have hsc : (l0.path.length : Int) ≤ score r := h2 l0 hl0 hb0
    obtain ⟨m, rfl, _⟩ := score_cast_le hsc
    obtain ⟨hbm, hmem⟩ := h1 m rfl
    have hmem' : m ∈ db.locations := by
      rcases hmem with h | h
      · exact h
      · cases h
    refine ⟨m, ?_, hmem', hbm, ?_, ?_⟩
    · rw [show LocationsCollection.find_parent db p =
        LocationsCollection.find_parent_loop p db.locations none (-1) from rfl, hr]
    · intro l hl hbl
      have := h2 l hl hbl
      simp only [score] at this
      exact_mod_cast this
    · intro l hl hbl hlen
      have hpe : l.path = m.path :=
        eq_of_startswith_of_length_eq (boundary_match_iff.mp hbl).1
          (boundary_match_iff.mp hbm).1 hlen
      exact eq_of_pairwise_key Location.path huniq hl hmem' hpe

/-- Witness for C1 on a concrete store: both the None case and the
longest-match case. -/
theorem find_parent_longest_prefix_correct_witness :
    LocationsCollection.find_parent ⟨[⟨"/pub", "u1", false⟩], [], []⟩ "/other" =
      .ok none ∧
    ∃ m, LocationsCollection.find_parent
        ⟨[⟨"/pub", "u1", false⟩], [], []⟩ "/pub/beer" = .ok (some m) ∧
      m ∈ [(⟨"/pub", "u1", false⟩ : Location)] ∧
      boundary_match "/pub/beer" m.path = true ∧
      (∀ l ∈ [(⟨"/pub", "u1", false⟩ : Location)],
        boundary_match "/pub/beer" l.path = true → l.path.length ≤ m.path.length) ∧
      (∀ l ∈ [(⟨"/pub", "u1", false⟩ : Location)],
        boundary_match "/pub/beer" l.path = true →
          l.path.length = m.path.length → l = m) := by
  constructor
  · exact (find_parent_longest_prefix_correct ⟨[⟨"/pub", "u1", false⟩], [], []⟩
      "/other" (by decide) (by decide) (by decide)).1 (by decide)
  · exact (find_parent_longest_prefix_correct ⟨[⟨"/pub", "u1", false⟩], [], []⟩
      "/pub/beer" (by decide) (by decide) (by decide)).2
      ⟨"/pub", "u1", false⟩ (by decide) (by decide)

/-- C9: on any store whose registered location paths are all non-empty
(in particular canonical ones), `find_parent` performs no out-of-bounds
string indexing: it always returns a value instead of an `IndexError`. -/
theorem find_parent_total (db : DB) (p : String)
    (h : ∀ l ∈ db.locations, l.path ≠ "") :
    ∃ r, LocationsCollection.find_parent db p = .ok r := by
  obtain ⟨r, hr, _⟩ :=
    find_parent_loop_spec p db.locations none (-1)
      (fun l hl => data_ne_nil_of_ne_empty (h l hl)) rfl
      (by intro m hm; cases hm)
  exact ⟨r, hr⟩

/-- Witness for C9 on a concrete store. -/
theorem find_parent_total_witness :
    ∃ r, LocationsCollection.find_parent
      ⟨[⟨"/pub", "u1", false⟩, ⟨"/", "u2", true⟩], [], []⟩ "/x" = .ok r :=
  find_parent_total ⟨[⟨"/pub", "u1", false⟩, ⟨"/", "u2", true⟩], [], []⟩ "/x"
    (by decide)

/-- C2: the boundary rule of `find_parent`: a location `/pub` is never the
result for request path `/public`; it is the result for `/pub` and
`/pub/beer` when no longer boundary match is registered; and a root
location `/` is a boundary match for every normalized request path. -/
theorem find_parent_boundary_rule :
    (∀ (db : DB) (m : Location), (∀ l ∈ db.locations, l.path ≠ "") →
      LocationsCollection.find_parent db "/public" = .ok (some m) →
      m.path ≠ "/pub") ∧
    (∀ (db : DB) (lp : Location), lp ∈ db.locations → lp.path = "/pub" →
      (∀ l ∈ db.locations, url_path.is_canonical l.path = true) →
      db.locations.Pairwise (fun a b => a.path ≠ b.path) →
      (∀ l ∈ db.locations, boundary_match "/pub" l.path = true →
        l.path.length ≤ 4) →
      LocationsCollection.find_parent db "/pub" = .ok (some lp)) ∧
    (∀ (db : DB) (lp : Location), lp ∈ db.locations → lp.path = "/pub" →
      (∀ l ∈ db.locations, url_path.is_canonical l.path = true) →
      db.locations.Pairwise (fun a b => a.path ≠ b.path) →
      (∀ l ∈ db.locations, boundary_match "/pub/beer" l.path = true →
        l.path.length ≤ 4) →
      LocationsCollection.find_parent db "/pub/beer" = .ok (some lp)) ∧
    (∀ p : String, url_path.is_canonical p = true →
      boundary_match p "/" = true) := by
  have key : ∀ (db : DB) (lp : Location) (np : String), lp ∈ db.locations →
      (∀ l ∈ db.locations, url_path.is_canonical l.path = true) →
      db.locations.Pairwise (fun a b => a.path ≠ b.path) →
      boundary_match np lp.path = true →
      (∀ l ∈ db.locations, boundary_match np l.path = true →
        l.path.length ≤ lp.path.length) →
      LocationsCollection.find_parent db np = .ok (some lp) := by
    intro db lp np hmem hcanon huniq hb hmax
    obtain ⟨r, hr, h1, h2, _, _⟩ :=
      find_parent_loop_spec np db.locations none (-1)
        (fun l hl => data_ne_nil_of_canonical (hcanon l hl)) rfl
        (by intro m hm; cases hm)
    have hsc : (lp.path.length : Int) ≤ score r := h2 lp hmem hb
    obtain ⟨m, rfl, hml⟩ := score_cast_le hsc
    obtain ⟨hbm, hmem'⟩ := h1 m rfl
    have hmmem : m ∈ db.locations := by
      rcases hmem' with h | h
      · exact h
      · cases h
    have hlen : m.path.length = lp.path.length :=
      le_antisymm (hmax m hmmem hbm) hml
    have hpe : m.path = lp.path :=
      eq_of_startswith_of_length_eq (boundary_match_iff.mp hbm).1
        (boundary_match_iff.mp hb).1 hlen
    have : m = lp := eq_of_pairwise_key Location.path huniq hmmem hmem hpe
    subst this
    rw [show LocationsCollection.find_parent db np =
      LocationsCollection.find_parent_loop np db.locations none (-1) from rfl, hr]
  refine ⟨?_, ?_, ?_, ?_⟩
  · intro db m hne hfp
    obtain ⟨r, hr, h1, _, _, _⟩ :=
      find_parent_loop_spec "/public" db.locations none (-1)
        (fun l hl => data_ne_nil_of_ne_empty (hne l hl)) rfl
        (by intro m hm; cases hm)
    rw [show LocationsCollection.find_parent db "/public" =
      LocationsCollection.find_parent_loop "/public" db.locations none (-1)
      from rfl, hr] at hfp
    injection hfp with hfp
    obtain ⟨hbm, _⟩ := h1 m hfp
    intro hpath
    rw [hpath] at hbm
    exact absurd hbm (by decide)
  · intro db lp hmem hpath hcanon huniq hmax
    refine key db lp "/pub" hmem hcanon huniq ?_ ?_
    · rw [hpath]; decide
    · intro l hl hbl
      rw [hpath]
      exact hmax l hl hbl
  · intro db lp hmem hpath hcanon huniq hmax
    refine key db lp "/pub/beer" hmem hcanon huniq ?_ ?_
    · rw [hpath]; decide
    · intro l hl hbl
      rw [hpath]
      exact hmax l hl hbl
  · intro p hp
    exact boundary_root (startswith_slash_of_canonical hp)

/-- Witness for C2 on concrete stores. -/
theorem find_parent_boundary_rule_witness :
    (⟨"/", "u0", false⟩ : Location).path ≠ "/pub" ∧
    LocationsCollection.find_parent
      ⟨[⟨"/", "u0", false⟩, ⟨"/pub", "u1", false⟩], [], []⟩ "/pub" =
      .ok (some ⟨"/pub", "u1", false⟩) ∧
    LocationsCollection.find_parent
      ⟨[⟨"/", "u0", false⟩, ⟨"/pub", "u1", false⟩], [], []⟩ "/pub/beer" =
      .ok (some ⟨"/pub", "u1", false⟩) ∧
    boundary_match "/anything" "/" = true := by
  refine ⟨?_, ?_, ?_, ?_⟩
  · exact find_parent_boundary_rule.1 ⟨[⟨"/", "u0", false⟩], [], []⟩
      ⟨"/", "u0", false⟩ (by decide) (by decide)
  · exact find_parent_boundary_rule.2.1
      ⟨[⟨"/", "u0", false⟩, ⟨"/pub", "u1", false⟩], [], []⟩
      ⟨"/pub", "u1", false⟩ (by decide) (by decide) (by decide) (by decide)
      (by decide)
  · exact find_parent_boundary_rule.2.2.1
      ⟨[⟨"/", "u0", false⟩, ⟨"/pub", "u1", false⟩], [], []⟩
      ⟨"/pub", "u1", false⟩ (by decide) (by decide) (by decide) (by decide)
      (by decide)
  · exact find_parent_boundary_rule.2.2.2 "/anything" (by decide)


/-! ### `can_access` (C3) -/

/-- Under the uniqueness invariants the joined permission query of
`can_access` matches at most one row. -/
theorem can_access_filter_le_one (db : DB) (l : Location) (user_uuid : String)
    (hwf : db.wf) :
    (db.permissions.filter (can_access_query db l user_uuid)).length ≤ 1 := by
  obtain ⟨_, _, _, huname, _, hperm⟩ := hwf
  apply filter_length_le_one (fun p => (p.http_location_id, p.user_id))
  · exact hperm.imp (by
      intro a b h hk
      rw [Prod.ext_iff] at hk
      rcases h with h | h
      · exact h hk.1
      · exact h hk.2)
  · intro a b ha hb
    unfold can_access_query at ha hb
    simp only [Bool.and_eq_true, beq_iff_eq, List.any_eq_true] at ha hb
    obtain ⟨hap, u1, hu1m, hu1⟩ := ha
    obtain ⟨hbp, u2, hu2m, hu2⟩ := hb
    have hu : u1 = u2 :=
      eq_of_pairwise_key User.username huname hu1m hu2m (hu1.2.trans hu2.2.symm)
    refine Prod.ext (hap.trans hbp.symm) ?_
    rw [← hu1.1, hu, hu2.1]

theorem can_access_query_iff (db : DB) (l : Location) (user_uuid : String)
    (p : Permission) :
    can_access_query db l user_uuid p = true ↔
      (p.http_location_id = l.path ∧
       ∃ u ∈ db.users, u.id = p.user_id ∧ u.username = user_uuid) := by
  unfold can_access_query
  simp [Bool.and_eq_true, beq_iff_eq, List.any_eq_true]

/-- C3: `can_access` returns `True` iff the location is open or a
permission row joins this location to the user with the given UUID; it is
`True` for every UUID when the location is open, and `False` — with no
error raised — when the UUID names no user and the location is closed. -/
theorem can_access_correct (db : DB) (l : Location) (user_uuid : String)
    (hwf : db.wf) :
    (∃ b, Location.can_access db l user_uuid = .ok b) ∧
    (Location.can_access db l user_uuid = .ok true ↔
      (l.open_access = true ∨
       ∃ p ∈ db.permissions, p.http_location_id = l.path ∧
         ∃ u ∈ db.users, u.id = p.user_id ∧ u.username = user_uuid)) ∧
    (l.open_access = true → Location.can_access db l user_uuid = .ok true) ∧
    ((∀ u ∈ db.users, u.username ≠ user_uuid) → l.open_access = false →
      Location.can_access db l user_uuid = .ok false) := by
  by_cases hopen : l.open_access = true
  · have hca : Location.can_access db l user_uuid = .ok true := by
      unfold Location.can_access
      rw [if_pos hopen]
    refine ⟨⟨true, hca⟩, ?_, fun _ => hca, ?_⟩
    · rw [hca]
      simp [hopen]
    · intro _ hfalse
      rw [hopen] at hfalse
      cases hfalse
  · have hfl := can_access_filter_le_one db l user_uuid hwf
    have hca : Location.can_access db l user_uuid =
        .ok ((db.permissions.filter (can_access_query db l user_uuid)).head?).isSome := by
      unfold Location.can_access
      rw [if_neg hopen, _find_eq_head hfl]
    have hopen' : l.open_access = false := by
      revert hopen; cases l.open_access <;> simp
    have hiff :
        ((db.permissions.filter (can_access_query db l user_uuid)).head?).isSome = true ↔
          ∃ p ∈ db.permissions, can_access_query db l user_uuid p = true := by
      constructor
      · intro h
        obtain ⟨a, ha⟩ := Option.isSome_iff_exists.mp h
        have ham := List.mem_of_mem_head? ha
        exact ⟨a, (List.mem_filter.mp ham).1, (List.mem_filter.mp ham).2⟩
      · rintro ⟨p, hp, hP⟩
        have hmem : p ∈ db.permissions.filter (can_access_query db l user_uuid) :=
          List.mem_filter.mpr ⟨hp, hP⟩
        cases hfm : db.permissions.filter (can_access_query db l user_uuid) with
        | nil => rw [hfm] at hmem; cases hmem
        | cons hd tl => rfl
    refine ⟨⟨_, hca⟩, ?_, ?_, ?_⟩
    · rw [hca]
      constructor
      · intro h
        have hb : ((db.permissions.filter (can_access_query db l user_uuid)).head?).isSome = true :=
          Except.ok.inj h
        obtain ⟨p, hp, hP⟩ := hiff.mp hb
        exact Or.inr ⟨p, hp, (can_access_query_iff db l user_uuid p).mp hP⟩
      · rintro (h | ⟨p, hp, hP⟩)
        · rw [h] at hopen'; cases hopen'
        · have := hiff.mpr ⟨p, hp, (can_access_query_iff db l user_uuid p).mpr hP⟩
          rw [this]
    · intro h
      rw [h] at hopen'; cases hopen'
    · intro hno _
      have hnone : ∀ p ∈ db.permissions, can_access_query db l user_uuid p = false := by
        intro p hp
        rw [Bool.eq_false_iff]
        intro hP
        obtain ⟨_, u, hum, _, hun⟩ := (can_access_query_iff db l user_uuid p).mp hP
        exact hno u hum hun
      have : db.permissions.filter (can_access_query db l user_uuid) = [] :=
        List.filter_eq_nil_iff.mpr (fun p hp => by simp [hnone p hp])
      rw [hca, this]
      rfl

/-- Witness for C3 on a concrete store: a closed location with one granted
user, probed with the granted UUID and with an unknown UUID. -/
theorem can_access_correct_witness :
    (Location.can_access
        ⟨[⟨"/pub", "u1", false⟩], [⟨1, "uu", "a@b.c", true⟩], [⟨"/pub", 1⟩]⟩
        ⟨"/pub", "u1", false⟩ "uu" = .ok true) ∧
    (Location.can_access
        ⟨[⟨"/pub", "u1", false⟩], [⟨1, "uu", "a@b.c", true⟩], [⟨"/pub", 1⟩]⟩
        ⟨"/pub", "u1", false⟩ "ghost" = .ok false) := by
  constructor
  · exact (can_access_correct
      ⟨[⟨"/pub", "u1", false⟩], [⟨1, "uu", "a@b.c", true⟩], [⟨"/pub", 1⟩]⟩
      ⟨"/pub", "u1", false⟩ "uu" (by decide)).2.1.mpr
      (Or.inr ⟨⟨"/pub", 1⟩, by decide, by decide, ⟨1, "uu", "a@b.c", true⟩,
        by decide, by decide, by decide⟩)
  · exact (can_access_correct
      ⟨[⟨"/pub", "u1", false⟩], [⟨1, "uu", "a@b.c", true⟩], [⟨"/pub", 1⟩]⟩
      ⟨"/pub", "u1", false⟩ "ghost" (by decide)).2.2.2 (by decide) (by decide)


/-! ### `grant_access` (C4) -/

/-- Under the invariant, the user-by-username query matches at most one
row. -/
theorem username_filter_le_one {users : List User}
    (huname : users.Pairwise (fun a b => a.username ≠ b.username))
    (user_uuid : String) :
    (users.filter (fun u => u.username == user_uuid)).length ≤ 1 := by
  apply filter_length_le_one User.username huname
  intro a b ha hb
  simp only [beq_iff_eq] at ha hb
  rw [ha, hb]

/-- Under the invariant, the permission-by-pair query matches at most one
row. -/
theorem pair_filter_le_one {perms : List Permission}
    (hperm : perms.Pairwise
      (fun a b => a.http_location_id ≠ b.http_location_id ∨ a.user_id ≠ b.user_id))
    (path : String) (uid : Nat) :
    (perms.filter (fun q => q.http_location_id == path && q.user_id == uid)).length ≤ 1 := by
  apply filter_length_le_one (fun q => (q.http_location_id, q.user_id))
  · exact hperm.imp (by
      intro a b h hk
      rw [Prod.ext_iff] at hk
      rcases h with h | h
      · exact h hk.1
      · exact h hk.2)
  · intro a b ha hb
    simp only [Bool.and_eq_true, beq_iff_eq] at ha hb
    rw [Prod.ext_iff]
    exact ⟨ha.1.trans hb.1.symm, ha.2.trans hb.2.symm⟩

theorem grant_access_user_none {db : DB} {l : Location} {user_uuid : String}
    (h : _find db.users (fun u => u.username == user_uuid) = .ok none) :
    Location.grant_access db l user_uuid =
      (.error (.lookupError "User not found"), db) := by
  unfold Location.grant_access
  rw [h]

theorem grant_access_user_some {db : DB} {l : Location} {user_uuid : String}
    {u : User} (h : _find db.users (fun u => u.username == user_uuid) = .ok (some u)) :
    Location.grant_access db l user_uuid =
      match _find db.permissions
          (fun p => p.http_location_id == l.path && p.user_id == u.id) with
      | .error _ => (.error .assertionError, db)
      | .ok (some permission) => (.ok (permission, false), db)
      | .ok none =>
          (.ok ((⟨l.path, u.id⟩ : Permission), true),
           { db with permissions := db.permissions ++ [⟨l.path, u.id⟩] }) := by
  unfold Location.grant_access
  rw [h]

/-- C4: granting is idempotent.  With an existing user: if no permission
for the (location, user) pair exists, `grant_access` inserts one and
returns it with `created=True`; the store then holds exactly one
permission for the pair and a second call returns the same permission
with `created=False`, leaving the store unchanged.  If the pair already
has a permission it is returned with `created=False`.  With no user for
the UUID, `grant_access` raises `LookupError`. -/
theorem grant_access_idempotent (db : DB) (l : Location) (user_uuid : String)
    (hwf : db.wf) :
    ((∀ u ∈ db.users, u.username ≠ user_uuid) →
      Location.grant_access db l user_uuid =
        (.error (.lookupError "User not found"), db)) ∧
    (∀ u ∈ db.users, u.username = user_uuid →
      ((∀ q ∈ db.permissions,
          ¬(q.http_location_id = l.path ∧ q.user_id = u.id)) →
        Location.grant_access db l user_uuid =
          (.ok (⟨l.path, u.id⟩, true),
           { db with permissions := db.permissions ++ [⟨l.path, u.id⟩] }) ∧
        ((db.permissions ++ [(⟨l.path, u.id⟩ : Permission)]).filter
          (fun q => q.http_location_id == l.path && q.user_id == u.id)).length = 1 ∧
        Location.grant_access
            { db with permissions := db.permissions ++ [⟨l.path, u.id⟩] } l user_uuid =
          (.ok (⟨l.path, u.id⟩, false),
           { db with permissions := db.permissions ++ [⟨l.path, u.id⟩] })) ∧
      (∀ q ∈ db.permissions, q.http_location_id = l.path → q.user_id = u.id →
        Location.grant_access db l user_uuid = (.ok (q, false), db))) := by
  obtain ⟨_, _, _, huname, _, hperm⟩ := hwf
  constructor
  · intro hno
    exact grant_access_user_none (_find_ok_none (fun u hu => by
      rw [beq_eq_false_iff_ne]
      exact hno u hu))
  · intro u hu huname_eq
    have hfind : _find db.users (fun v => v.username == user_uuid) = .ok (some u) :=
      _find_ok_some hu (by rw [beq_iff_eq]; exact huname_eq)
        (username_filter_le_one huname user_uuid)
    constructor
    · intro hnopair
      have hq0 : ∀ q ∈ db.permissions,
          (q.http_location_id == l.path && q.user_id == u.id) = false := by
        intro q hq
        rw [Bool.eq_false_iff]
        intro hqt
        simp only [Bool.and_eq_true, beq_iff_eq] at hqt
        exact hnopair q hq hqt
      have hfq : _find db.permissions
          (fun q => q.http_location_id == l.path && q.user_id == u.id) = .ok none :=
        _find_ok_none hq0
      have hfirst : Location.grant_access db l user_uuid =
          (.ok (⟨l.path, u.id⟩, true),
           { db with permissions := db.permissions ++ [⟨l.path, u.id⟩] }) := by
        rw [grant_access_user_some hfind, hfq]
      have hfilter0 : db.permissions.filter
          (fun q => q.http_location_id == l.path && q.user_id == u.id) = [] :=
        List.filter_eq_nil_iff.mpr (fun q hq => by simp [hq0 q hq])
      have hcount : ((db.permissions ++ [(⟨l.path, u.id⟩ : Permission)]).filter
          (fun q => q.http_location_id == l.path && q.user_id == u.id)).length = 1 := by
        rw [List.filter_append, hfilter0]
        simp
      refine ⟨hfirst, hcount, ?_⟩
      have hmem2 : (⟨l.path, u.id⟩ : Permission) ∈
          db.permissions ++ [⟨l.path, u.id⟩] :=
        List.mem_append_right _ (List.mem_singleton.mpr rfl)
      have hfq2 : _find (db.permissions ++ [⟨l.path, u.id⟩])
          (fun q => q.http_location_id == l.path && q.user_id == u.id) =
          .ok (some ⟨l.path, u.id⟩) :=
        _find_ok_some hmem2 (by simp) (le_of_eq hcount)
      have hfind2 : _find ({ db with
          permissions := db.permissions ++ [⟨l.path, u.id⟩] } : DB).users
          (fun v => v.username == user_uuid) = .ok (some u) := hfind
      rw [grant_access_user_some hfind2]
      rw [show ({ db with permissions := db.permissions ++ [⟨l.path, u.id⟩] } : DB).permissions
        = db.permissions ++ [⟨l.path, u.id⟩] from rfl, hfq2]
    · intro q hq hq1 hq2
      have hfq : _find db.permissions
          (fun p => p.http_location_id == l.path && p.user_id == u.id) = .ok (some q) :=
        _find_ok_some hq (by simp [hq1, hq2]) (pair_filter_le_one hperm l.path u.id)
      rw [grant_access_user_some hfind, hfq]

/-- Witness for C4 on a concrete store: fresh grant, the resulting count,
the idempotent second grant, and the unknown-user failure. -/
theorem grant_access_idempotent_witness :
    Location.grant_access ⟨[⟨"/pub", "u1", false⟩], [⟨1, "uu", "a@b.c", true⟩], []⟩
      ⟨"/pub", "u1", false⟩ "uu" =
      (.ok (⟨"/pub", 1⟩, true),
       ⟨[⟨"/pub", "u1", false⟩], [⟨1, "uu", "a@b.c", true⟩], [⟨"/pub", 1⟩]⟩) ∧
    Location.grant_access
        ⟨[⟨"/pub", "u1", false⟩], [⟨1, "uu", "a@b.c", true⟩], [⟨"/pub", 1⟩]⟩
        ⟨"/pub", "u1", false⟩ "uu" =
      (.ok (⟨"/pub", 1⟩, false),
       ⟨[⟨"/pub", "u1", false⟩], [⟨1, "uu", "a@b.c", true⟩], [⟨"/pub", 1⟩]⟩) ∧
    Location.grant_access ⟨[⟨"/pub", "u1", false⟩], [⟨1, "uu", "a@b.c", true⟩], []⟩
      ⟨"/pub", "u1", false⟩ "ghost" =
      (.error (.lookupError "User not found"),
       ⟨[⟨"/pub", "u1", false⟩], [⟨1, "uu", "a@b.c", true⟩], []⟩) := by
  have h := grant_access_idempotent
    ⟨[⟨"/pub", "u1", false⟩], [⟨1, "uu", "a@b.c", true⟩], []⟩
    ⟨"/pub", "u1", false⟩ "uu" (by decide)
  obtain ⟨h1, _, h3⟩ := (h.2 ⟨1, "uu", "a@b.c", true⟩ (by decide) (by decide)).1
    (by decide)
  refine ⟨h1, h3, ?_⟩
  exact (grant_access_idempotent
    ⟨[⟨"/pub", "u1", false⟩], [⟨1, "uu", "a@b.c", true⟩], []⟩
    ⟨"/pub", "u1", false⟩ "ghost" (by decide)).1 (by decide)

/-! ### `revoke_access` and `get_permission` (C5) -/

theorem filter_eq_singleton {α : Type} {l : List α} {p : α → Bool} {a : α}
    (hmem : a ∈ l) (hp : p a = true) (hlen : (l.filter p).length ≤ 1) :
    l.filter p = [a] := by
  have hmf : a ∈ l.filter p := List.mem_filter.mpr ⟨hmem, hp⟩
  match hm : l.filter p with
  | [] => rw [hm] at hmf; cases hmf
  | [b] =>
    rw [hm] at hmf
    rcases List.mem_singleton.mp hmf with rfl
    rfl
  | b :: c :: rest => rw [hm] at hlen; simp at hlen

theorem get_permission_user_none {db : DB} {l : Location} {user_uuid : String}
    (h : _find db.users (fun u => u.username == user_uuid) = .ok none) :
    Location.get_permission db l user_uuid =
      .error (.lookupError "User not found.") := by
  unfold Location.get_permission
  rw [h]

theorem get_permission_user_some {db : DB} {l : Location} {user_uuid : String}
    {u : User} (h : _find db.users (fun u => u.username == user_uuid) = .ok (some u)) :
    Location.get_permission db l user_uuid =
      match _find db.permissions
          (fun p => p.http_location_id == l.path && p.user_id == u.id) with
      | .error _ => .error .assertionError
      | .ok none => .error (.lookupError "User can not access location.")
      | .ok (some permission) => .ok permission := by
  unfold Location.get_permission
  rw [h]

theorem revoke_access_of_get {db : DB} {l : Location} {user_uuid : String} :
    Location.revoke_access db l user_uuid =
      match Location.get_permission db l user_uuid with
      | .error e => (.error e, db)
      | .ok permission =>
          (.ok (), { db with permissions := db.permissions.erase permission }) :=
  rfl

/-- C5: `get_permission` and `revoke_access` raise `LookupError` exactly
when the UUID names no user or the user holds no permission for the
location; otherwise `get_permission` returns the pair's permission row
leaving the store as it is, and `revoke_access` deletes exactly that row,
after which no permission for the pair remains. -/
theorem revoke_get_permission_correct (db : DB) (l : Location)
    (user_uuid : String) (hwf : db.wf) :
    ((∀ u ∈ db.users, u.username ≠ user_uuid) →
      Location.get_permission db l user_uuid =
        .error (.lookupError "User not found.") ∧
      Location.revoke_access db l user_uuid =
        (.error (.lookupError "User not found."), db)) ∧
    (∀ u ∈ db.users, u.username = user_uuid →
      ((∀ q ∈ db.permissions,
          ¬(q.http_location_id = l.path ∧ q.user_id = u.id)) →
        Location.get_permission db l user_uuid =
          .error (.lookupError "User can not access location.") ∧
        Location.revoke_access db l user_uuid =
          (.error (.lookupError "User can not access location."), db)) ∧
      (∀ q ∈ db.permissions, q.http_location_id = l.path → q.user_id = u.id →
        Location.get_permission db l user_uuid = .ok q ∧
        Location.revoke_access db l user_uuid =
          (.ok (), { db with permissions := db.permissions.erase q }) ∧
        (∀ x ∈ db.permissions.erase q,
          ¬(x.http_location_id = l.path ∧ x.user_id = u.id)))) := by
  obtain ⟨_, _, _, huname, _, hperm⟩ := hwf
  constructor
  · intro hno
    have hfind : _find db.users (fun v => v.username == user_uuid) = .ok none :=
      _find_ok_none (fun v hv => by
        rw [beq_eq_false_iff_ne]
        exact hno v hv)
    have hget := get_permission_user_none (l := l) hfind
    refine ⟨hget, ?_⟩
    rw [revoke_access_of_get, hget]
  · intro u hu huname_eq
    have hfind : _find db.users (fun v => v.username == user_uuid) = .ok (some u) :=
      _find_ok_some hu (by rw [beq_iff_eq]; exact huname_eq)
        (username_filter_le_one huname user_uuid)
    constructor
    · intro hnopair
      have hfq : _find db.permissions
          (fun q => q.http_location_id == l.path && q.user_id == u.id) = .ok none :=
        _find_ok_none (fun q hq => by
          rw [Bool.eq_false_iff]
          intro hqt
          simp only [Bool.and_eq_true, beq_iff_eq] at hqt
          exact hnopair q hq hqt)
      have hget : Location.get_permission db l user_uuid =
          .error (.lookupError "User can not access location.") := by
        rw [get_permission_user_some hfind, hfq]
      refine ⟨hget, ?_⟩
      rw [revoke_access_of_get, hget]
    · intro q hq hq1 hq2
      have hfq : _find db.permissions
          (fun p => p.http_location_id == l.path && p.user_id == u.id) = .ok (some q) :=
        _find_ok_some hq (by simp [hq1, hq2]) (pair_filter_le_one hperm l.path u.id)
      have hget : Location.get_permission db l user_uuid = .ok q := by
        rw [get_permission_user_some hfind, hfq]
      refine ⟨hget, ?_, ?_⟩
      · rw [revoke_access_of_get, hget]
      · have hnodup : db.permissions.Nodup := hperm.imp (by
          intro a b h hab
          subst hab
          rcases h with h | h
          · exact h rfl
          · exact h rfl)
        have hsingle : db.permissions.filter
            (fun p => p.http_location_id == l.path && p.user_id == u.id) = [q] :=
          filter_eq_singleton hq (by simp [hq1, hq2])
            (pair_filter_le_one hperm l.path u.id)
        intro x hx hpair
        have hx1 : x ≠ q ∧ x ∈ db.permissions := (hnodup.mem_erase_iff).mp hx
        have hxf : x ∈ db.permissions.filter
            (fun p => p.http_location_id == l.path && p.user_id == u.id) :=
          List.mem_filter.mpr ⟨hx1.2, by simp [hpair.1, hpair.2]⟩
        rw [hsingle] at hxf
        exact hx1.1 (List.mem_singleton.mp hxf)

/-- Witness for C5 on a concrete store. -/
theorem revoke_get_permission_correct_witness :
    Location.get_permission
      ⟨[⟨"/pub", "u1", false⟩], [⟨1, "uu", "a@b.c", true⟩], [⟨"/pub", 1⟩]⟩
      ⟨"/pub", "u1", false⟩ "uu" = .ok ⟨"/pub", 1⟩ ∧
    Location.revoke_access
      ⟨[⟨"/pub", "u1", false⟩], [⟨1, "uu", "a@b.c", true⟩], [⟨"/pub", 1⟩]⟩
      ⟨"/pub", "u1", false⟩ "uu" =
      (.ok (), { (⟨[⟨"/pub", "u1", false⟩], [⟨1, "uu", "a@b.c", true⟩],
          [⟨"/pub", 1⟩]⟩ : DB) with
        permissions := [(⟨"/pub", 1⟩ : Permission)].erase ⟨"/pub", 1⟩ }) ∧
    Location.get_permission
      ⟨[⟨"/pub", "u1", false⟩], [⟨1, "uu", "a@b.c", true⟩], []⟩
      ⟨"/pub", "u1", false⟩ "uu" =
      .error (.lookupError "User can not access location.") ∧
    Location.get_permission
      ⟨[⟨"/pub", "u1", false⟩], [⟨1, "uu", "a@b.c", true⟩], [⟨"/pub", 1⟩]⟩
      ⟨"/pub", "u1", false⟩ "ghost" =
      .error (.lookupError "User not found.") := by
  have h := revoke_get_permission_correct
    ⟨[⟨"/pub", "u1", false⟩], [⟨1, "uu", "a@b.c", true⟩], [⟨"/pub", 1⟩]⟩
    ⟨"/pub", "u1", false⟩ "uu" (by decide)
  obtain ⟨hget, hrev, _⟩ := (h.2 ⟨1, "uu", "a@b.c", true⟩ (by decide) (by decide)).2
    ⟨"/pub", 1⟩ (by decide) (by decide) (by decide)
  refine ⟨hget, hrev, ?_, ?_⟩
  · exact ((revoke_get_permission_correct
      ⟨[⟨"/pub", "u1", false⟩], [⟨1, "uu", "a@b.c", true⟩], []⟩
      ⟨"/pub", "u1", false⟩ "uu" (by decide)).2 ⟨1, "uu", "a@b.c", true⟩
      (by decide) (by decide)).1 (by decide) |>.1
  · exact (revoke_get_permission_correct
      ⟨[⟨"/pub", "u1", false⟩], [⟨1, "uu", "a@b.c", true⟩], [⟨"/pub", 1⟩]⟩
      ⟨"/pub", "u1", false⟩ "ghost" (by decide)).1 (by decide) |>.1

/-! ### `LocationsCollection.create_item` (C6) -/

/-- Every failing `create_item` call leaves the store unchanged: all
raises happen before the insert. -/
theorem locations_create_item_error_keeps_db (db : DB) (fresh_uuid path : String) :
    ∀ e db2, LocationsCollection.create_item db fresh_uuid path = (.error e, db2) →
      db2 = db := by
  intro e db2 h
  unfold LocationsCollection.create_item at h
  repeat' first
    | (injection h with h1 h2; first | exact h2.symm | injection h1)
    | split at h

/-- C6: location creation runs the four path checks in order with a
distinct error for the first failing one, then rejects a duplicate path;
every failure leaves the store unchanged; success appends exactly one
location with the given path, `open_access = False` and the freshly
generated non-empty UUID, and a lookup by that path then returns it. -/
theorem locations_create_item_correct (db : DB) (fresh_uuid path : String)
    (hwf : db.wf) (hfresh : fresh_uuid ≠ "") :
    (url_path.is_canonical path = false →
      LocationsCollection.create_item db fresh_uuid path =
        (.error (.creation .notCanonical), db)) ∧
    (url_path.is_canonical path = true →
      url_path.contains_fragment path = true →
      LocationsCollection.create_item db fresh_uuid path =
        (.error (.creation .hasFragment), db)) ∧
    (url_path.is_canonical path = true →
      url_path.contains_fragment path = false →
      url_path.contains_query path = true →
      LocationsCollection.create_item db fresh_uuid path =
        (.error (.creation .hasQuery), db)) ∧
    (url_path.is_canonical path = true →
      url_path.contains_fragment path = false →
      url_path.contains_query path = false →
      url_path.contains_params path = true →
      LocationsCollection.create_item db fresh_uuid path =
        (.error (.creation .hasParams), db)) ∧
    (url_path.is_canonical path = true →
      url_path.contains_fragment path = false →
      url_path.contains_query path = false →
      url_path.contains_params path = false →
      ∀ l0 ∈ db.locations, l0.path = path →
      LocationsCollection.create_item db fresh_uuid path =
        (.error (.creation .locationExists), db)) ∧
    (∀ e db2, LocationsCollection.create_item db fresh_uuid path =
      (.error e, db2) → db2 = db) ∧
    (url_path.is_canonical path = true →
      url_path.contains_fragment path = false →
      url_path.contains_query path = false →
      url_path.contains_params path = false →
      (∀ l ∈ db.locations, l.path ≠ path) →
      path.length ≤ 2000 →
      LocationsCollection.create_item db fresh_uuid path =
        (.ok ⟨path, fresh_uuid, false⟩,
         { db with locations := db.locations ++ [⟨path, fresh_uuid, false⟩] }) ∧
      (⟨path, fresh_uuid, false⟩ : Location).uuid ≠ "" ∧
      ((db.locations ++ [(⟨path, fresh_uuid, false⟩ : Location)]).filter
        (fun l => l.path == path)).length = 1 ∧
      LocationsCollection.find_by_path
          { db with locations := db.locations ++ [⟨path, fresh_uuid, false⟩] }
          path =
        .ok (some ⟨path, fresh_uuid, false⟩)) := by
  obtain ⟨hlpath, _, _, _, _, _⟩ := hwf
  refine ⟨?_, ?_, ?_, ?_, ?_,
    locations_create_item_error_keeps_db db fresh_uuid path, ?_⟩
  · intro h1
    unfold LocationsCollection.create_item
    simp [h1]
  · intro h1 h2
    unfold LocationsCollection.create_item
    simp [h1, h2]
  · intro h1 h2 h3
    unfold LocationsCollection.create_item
    simp [h1, h2, h3]
  · intro h1 h2 h3 h4
    unfold LocationsCollection.create_item
    simp [h1, h2, h3, h4]
  · intro h1 h2 h3 h4 l0 hl0 hl0p
    have hfind : _find db.locations (fun l => l.path == path) = .ok (some l0) :=
      _find_ok_some hl0 (by rw [beq_iff_eq]; exact hl0p)
        (filter_length_le_one Location.path hlpath (by
          intro a b ha hb
          rw [beq_iff_eq] at ha hb
          rw [ha, hb]))
    unfold LocationsCollection.create_item
    simp only [h1, h2, h3, h4, Bool.not_true, Bool.not_false, if_true, if_false,
      Bool.false_eq_true, hfind]
  · intro h1 h2 h3 h4 hnodup hlen
    have hfilter0 : db.locations.filter (fun l => l.path == path) = [] :=
      List.filter_eq_nil_iff.mpr (fun l hl => by
        simp only [beq_iff_eq, Bool.not_eq_true]
        exact hnodup l hl)
    have hfind : _find db.locations (fun l => l.path == path) = .ok none := by
      rw [_find_eq_head (by rw [hfilter0]; simp), hfilter0]
      rfl
    have hcreated : LocationsCollection.create_item db fresh_uuid path =
        (.ok ⟨path, fresh_uuid, false⟩,
         { db with locations := db.locations ++ [⟨path, fresh_uuid, false⟩] }) := by
      unfold LocationsCollection.create_item
      simp only [h1, h2, h3, h4, Bool.not_true, Bool.not_false, if_true, if_false,
        Bool.false_eq_true, hfind]
      rw [if_neg (by omega)]
      simp [Location.save_fresh]
    have hfilter1 : ((db.locations ++ [(⟨path, fresh_uuid, false⟩ : Location)]).filter
        (fun l => l.path == path)) = [⟨path, fresh_uuid, false⟩] := by
      rw [List.filter_append, hfilter0]
      simp
    refine ⟨hcreated, hfresh, by rw [hfilter1]; rfl, ?_⟩
    unfold LocationsCollection.find_by_path
    rw [show ({ db with locations := db.locations ++ [⟨path, fresh_uuid, false⟩] } : DB).locations
      = db.locations ++ [⟨path, fresh_uuid, false⟩] from rfl]
    rw [_find_eq_head (by rw [hfilter1]; simp), hfilter1]
    rfl

/-- Witness for C6 on a concrete store: one failure of each kind and a
successful round trip. -/
theorem locations_create_item_correct_witness :
    LocationsCollection.create_item ⟨[], [], []⟩ "f1" "a/b" =
      (.error (.creation .notCanonical), ⟨[], [], []⟩) ∧
    LocationsCollection.create_item ⟨[], [], []⟩ "f1" "/a#b" =
      (.error (.creation .hasFragment), ⟨[], [], []⟩) ∧
    LocationsCollection.create_item ⟨[], [], []⟩ "f1" "/a?b" =
      (.error (.creation .hasQuery), ⟨[], [], []⟩) ∧
    LocationsCollection.create_item ⟨[], [], []⟩ "f1" "/a;b" =
      (.error (.creation .hasParams), ⟨[], [], []⟩) ∧
    LocationsCollection.create_item ⟨[⟨"/a/b/", "u1", false⟩], [], []⟩ "f1" "/a/b/" =
      (.error (.creation .locationExists), ⟨[⟨"/a/b/", "u1", false⟩], [], []⟩) ∧
    LocationsCollection.create_item ⟨[], [], []⟩ "f1" "/a/b/" =
      (.ok ⟨"/a/b/", "f1", false⟩, ⟨[⟨"/a/b/", "f1", false⟩], [], []⟩) ∧
    LocationsCollection.find_by_path ⟨[⟨"/a/b/", "f1", false⟩], [], []⟩ "/a/b/" =
      .ok (some ⟨"/a/b/", "f1", false⟩) := by
  have hok := (locations_create_item_correct ⟨[], [], []⟩ "f1" "/a/b/"
    (by decide) (by decide)).2.2.2.2.2.2 (by decide) (by decide) (by decide)
    (by decide) (by decide) (by decide)
  refine ⟨?_, ?_, ?_, ?_, ?_, hok.1, hok.2.2.2⟩
  · exact (locations_create_item_correct ⟨[], [], []⟩ "f1" "a/b"
      (by decide) (by decide)).1 (by decide)
  · exact (locations_create_item_correct ⟨[], [], []⟩ "f1" "/a#b"
      (by decide) (by decide)).2.1 (by decide) (by decide)
  · exact (locations_create_item_correct ⟨[], [], []⟩ "f1" "/a?b"
      (by decide) (by decide)).2.2.1 (by decide) (by decide) (by decide)
  · exact (locations_create_item_correct ⟨[], [], []⟩ "f1" "/a;b"
      (by decide) (by decide)).2.2.2.1 (by decide) (by decide) (by decide)
      (by decide)
  · exact (locations_create_item_correct ⟨[⟨"/a/b/", "u1", false⟩], [], []⟩
      "f1" "/a/b/" (by decide) (by decide)).2.2.2.2.1 (by decide) (by decide)
      (by decide) (by decide) ⟨"/a/b/", "u1", false⟩ (by decide) (by decide)

/-! ### `UsersCollection.create_item` and `find_item_by_email` (C7) -/

/-- Under the invariant, the user-by-email query matches at most one
row. -/
theorem email_filter_le_one {users : List User}
    (hemail : users.Pairwise (fun a b => a.email ≠ b.email))
    (encoded_email : String) :
    (users.filter (fun u => u.email == encoded_email)).length ≤ 1 := by
  apply filter_length_le_one User.email hemail
  intro a b ha hb
  simp only [beq_iff_eq] at ha hb
  rw [ha, hb]

theorem users_create_item_encoded {db : DB} {fresh_uuid : String}
    {fresh_id : Nat} {email enc : String} (h : _encode_email email = .ok enc) :
    UsersCollection.create_item db fresh_uuid fresh_id email =
      match _find db.users (fun u => u.email == enc) with
      | .error _ => (.error .assertionError, db)
      | .ok (some _) => (.error (.creation .userExists), db)
      | .ok none =>
          (.ok (⟨fresh_id, fresh_uuid, enc, true⟩ : User),
           { db with users := db.users ++ [⟨fresh_id, fresh_uuid, enc, true⟩] }) := by
  unfold UsersCollection.create_item
  rw [h]

theorem find_item_by_email_encoded {db : DB} {email enc : String}
    (h : _encode_email email = .ok enc) :
    UsersCollection.find_item_by_email db email =
      _find db.users (fun u => u.email == enc) := by
  unfold UsersCollection.find_item_by_email
  rw [h]

/-- C7: user creation lower-cases the email and fails on a pattern
mismatch of the lower-cased email; it fails when an active user already
holds the encoded email; otherwise it stores an active user with the
fresh identifier and the encoded email.  (Every user this module stores
is active — `create_item` always sets `is_active=True` — which the
`hactive` invariant records.)  Lookup by email returns `None` on a
malformed email and on a missing user, and never raises. -/
theorem users_create_item_correct (db : DB) (fresh_uuid : String)
    (fresh_id : Nat) (email : String) (hwf : db.wf)
    (hactive : ∀ u ∈ db.users, u.is_active = true) :
    (_is_email_valid (pylower email) = false →
      UsersCollection.create_item db fresh_uuid fresh_id email =
        (.error (.creation .invalidEmail), db) ∧
      UsersCollection.find_item_by_email db email = .ok none) ∧
    (_is_email_valid (pylower email) = true →
      (∀ u0 ∈ db.users, u0.is_active = true → u0.email = pylower email →
        UsersCollection.create_item db fresh_uuid fresh_id email =
          (.error (.creation .userExists), db)) ∧
      ((∀ u0 ∈ db.users, u0.is_active = true → u0.email ≠ pylower email) →
        UsersCollection.create_item db fresh_uuid fresh_id email =
          (.ok ⟨fresh_id, fresh_uuid, pylower email, true⟩,
           { db with users := db.users ++ [⟨fresh_id, fresh_uuid, pylower email, true⟩] }) ∧
        (⟨fresh_id, fresh_uuid, pylower email, true⟩ : User).is_active = true)) ∧
    ((∀ u0 ∈ db.users, u0.email ≠ pylower email) →
      UsersCollection.find_item_by_email db email = .ok none) ∧
    (∃ r, UsersCollection.find_item_by_email db email = .ok r) := by
  obtain ⟨_, _, _, _, hemail, _⟩ := hwf
  have henc_bad : _is_email_valid (pylower email) = false →
      _encode_email email = .error "Invalid email format." := by
    intro h
    unfold _encode_email
    rw [if_neg (by rw [h]; exact Bool.false_ne_true)]
  have henc_good : _is_email_valid (pylower email) = true →
      _encode_email email = .ok (pylower email) := by
    intro h
    unfold _encode_email
    rw [if_pos h]
  refine ⟨?_, ?_, ?_, ?_⟩
  · intro h
    constructor
    · unfold UsersCollection.create_item
      rw [henc_bad h]
    · unfold UsersCollection.find_item_by_email
      rw [henc_bad h]
  · intro h
    constructor
    · intro u0 hu0 _ hu0e
      have hfind : _find db.users (fun u => u.email == pylower email) =
          .ok (some u0) :=
        _find_ok_some hu0 (by rw [beq_iff_eq]; exact hu0e)
          (email_filter_le_one hemail (pylower email))
      rw [users_create_item_encoded (henc_good h), hfind]
    · intro hno
      have hfind : _find db.users (fun u => u.email == pylower email) = .ok none :=
        _find_ok_none (fun u hu => by
          rw [beq_eq_false_iff_ne]
          exact hno u hu (hactive u hu))
      constructor
      · rw [users_create_item_encoded (henc_good h), hfind]
      · rfl
  · intro hno
    by_cases h : _is_email_valid (pylower email) = true
    · have hfind : _find db.users (fun u => u.email == pylower email) = .ok none :=
        _find_ok_none (fun u hu => by
          rw [beq_eq_false_iff_ne]
          exact hno u hu)
      rw [find_item_by_email_encoded (henc_good h), hfind]
    · unfold UsersCollection.find_item_by_email
      rw [henc_bad (Bool.not_eq_true _ ▸ h)]
  · by_cases h : _is_email_valid (pylower email) = true
    · refine ⟨(db.users.filter (fun u => u.email == pylower email)).head?, ?_⟩
      rw [find_item_by_email_encoded (henc_good h),
        _find_eq_head (email_filter_le_one hemail (pylower email))]
    · refine ⟨none, ?_⟩
      unfold UsersCollection.find_item_by_email
      rw [henc_bad (Bool.not_eq_true _ ▸ h)]

/-- Witness for C7 on a concrete store. -/
theorem users_create_item_correct_witness :
    UsersCollection.create_item ⟨[], [⟨1, "uu", "a@b.c", true⟩], []⟩ "f2" 2
      "not-an-email" =
      (.error (.creation .invalidEmail), ⟨[], [⟨1, "uu", "a@b.c", true⟩], []⟩) ∧
    UsersCollection.create_item ⟨[], [⟨1, "uu", "a@b.c", true⟩], []⟩ "f2" 2
      "A@B.C" =
      (.error (.creation .userExists), ⟨[], [⟨1, "uu", "a@b.c", true⟩], []⟩) ∧
    UsersCollection.create_item ⟨[], [⟨1, "uu", "a@b.c", true⟩], []⟩ "f2" 2
      "New@B.C" =
      (.ok ⟨2, "f2", "new@b.c", true⟩,
       ⟨[], [⟨1, "uu", "a@b.c", true⟩, ⟨2, "f2", "new@b.c", true⟩], []⟩) ∧
    UsersCollection.find_item_by_email ⟨[], [⟨1, "uu", "a@b.c", true⟩], []⟩
      "not-an-email" = .ok none ∧
    UsersCollection.find_item_by_email ⟨[], [⟨1, "uu", "a@b.c", true⟩], []⟩
      "nobody@b.c" = .ok none := by
  refine ⟨?_, ?_, ?_, ?_, ?_⟩
  · exact ((users_create_item_correct ⟨[], [⟨1, "uu", "a@b.c", true⟩], []⟩
      "f2" 2 "not-an-email" (by decide) (by decide)).1 (by decide)).1
  · exact ((users_create_item_correct ⟨[], [⟨1, "uu", "a@b.c", true⟩], []⟩
      "f2" 2 "A@B.C" (by decide) (by decide)).2.1 (by decide)).1
      ⟨1, "uu", "a@b.c", true⟩ (by decide) (by decide) (by decide)
  · exact (((users_create_item_correct ⟨[], [⟨1, "uu", "a@b.c", true⟩], []⟩
      "f2" 2 "New@B.C" (by decide) (by decide)).2.1 (by decide)).2
      (by decide)).1
  · exact ((users_create_item_correct ⟨[], [⟨1, "uu", "a@b.c", true⟩], []⟩
      "f2" 2 "not-an-email" (by decide) (by decide)).1 (by decide)).2
  · exact (users_create_item_correct ⟨[], [⟨1, "uu", "a@b.c", true⟩], []⟩
      "f2" 2 "nobody@b.c" (by decide) (by decide)).2.2.1 (by decide)

/-! ### `delete_item` and the Permission cascade (C8) -/

/-- Under the invariant, the location-by-uuid query matches at most one
row. -/
theorem location_uuid_filter_le_one {locs : List Location}
    (hluid : locs.Pairwise (fun a b => a.uuid ≠ b.uuid)) (uuidv : String) :
    (locs.filter (fun l => l.uuid == uuidv)).length ≤ 1 := by
  apply filter_length_le_one Location.uuid hluid
  intro a b ha hb
  simp only [beq_iff_eq] at ha hb
  rw [ha, hb]

/-- C8: `delete_item` answers whether a row with the UUID existed and
removes it; deleting a location or a user cascades to every permission
referencing it, and afterwards `get_permission` for any removed pair
raises `LookupError`. -/
theorem delete_item_cascade (db : DB) (uuidv : String) (hwf : db.wf) :
    ((∀ l ∈ db.locations, l.uuid ≠ uuidv) →
      LocationsCollection.delete_item db uuidv = (.ok false, db)) ∧
    (∀ item ∈ db.locations, item.uuid = uuidv →
      LocationsCollection.delete_item db uuidv =
        (.ok true,
         { db with
           locations := db.locations.erase item,
           permissions := db.permissions.filter
             (fun p => p.http_location_id != item.path) }) ∧
      (∀ p ∈ db.permissions.filter (fun p => p.http_location_id != item.path),
        p.http_location_id ≠ item.path) ∧
      (∀ user_uuid : String, ∃ msg, Location.get_permission
          { db with
            locations := db.locations.erase item,
            permissions := db.permissions.filter
              (fun p => p.http_location_id != item.path) }
          item user_uuid = .error (.lookupError msg))) ∧
    ((∀ u ∈ db.users, u.username ≠ uuidv) →
      UsersCollection.delete_item db uuidv = (.ok false, db)) ∧
    (∀ item ∈ db.users, item.username = uuidv →
      UsersCollection.delete_item db uuidv =
        (.ok true,
         { db with
           users := db.users.erase item,
           permissions := db.permissions.filter
             (fun p => p.user_id != item.id) }) ∧
      (∀ p ∈ db.permissions.filter (fun p => p.user_id != item.id),
        p.user_id ≠ item.id) ∧
      (∀ l : Location, ∃ msg, Location.get_permission
          { db with
            users := db.users.erase item,
            permissions := db.permissions.filter
              (fun p => p.user_id != item.id) }
          l item.username = .error (.lookupError msg))) := by
  obtain ⟨_, hluid, _, huname, _, _⟩ := hwf
  refine ⟨?_, ?_, ?_, ?_⟩
  · intro hno
    have hfind : _find db.locations (fun l => l.uuid == uuidv) = .ok none :=
      _find_ok_none (fun l hl => by
        rw [beq_eq_false_iff_ne]
        exact hno l hl)
    unfold LocationsCollection.delete_item LocationsCollection.find_item
    rw [hfind]
  · intro item hitem hiuuid
    have hfind : _find db.locations (fun l => l.uuid == uuidv) = .ok (some item) :=
      _find_ok_some hitem (by rw [beq_iff_eq]; exact hiuuid)
        (location_uuid_filter_le_one hluid uuidv)
    refine ⟨?_, ?_, ?_⟩
    · unfold LocationsCollection.delete_item LocationsCollection.find_item
      rw [hfind]
    · intro p hp
      have := (List.mem_filter.mp hp).2
      exact bne_iff_ne.mp this
    · intro user_uuid
      by_cases hu : ∀ u ∈ db.users, u.username ≠ user_uuid
      · refine ⟨"User not found.", ?_⟩
        exact get_permission_user_none (_find_ok_none (fun u huu => by
          rw [beq_eq_false_iff_ne]
          exact hu u huu))
      · push_neg at hu
        obtain ⟨u, hum, huname_eq⟩ := hu
        have hfu : _find db.users (fun v => v.username == user_uuid) =
            .ok (some u) :=
          _find_ok_some hum (by rw [beq_iff_eq]; exact huname_eq)
            (username_filter_le_one huname user_uuid)
        refine ⟨"User can not access location.", ?_⟩
        have hfu2 : _find ({ db with
            locations := db.locations.erase item,
            permissions := db.permissions.filter
              (fun p => p.http_location_id != item.path) } : DB).users
            (fun v => v.username == user_uuid) = .ok (some u) := hfu
        rw [get_permission_user_some hfu2]
        have hfq : _find (db.permissions.filter
            (fun p => p.http_location_id != item.path))
            (fun p => p.http_location_id == item.path && p.user_id == u.id) =
            .ok none :=
          _find_ok_none (fun p hp => by
            have hne := bne_iff_ne.mp (List.mem_filter.mp hp).2
            rw [Bool.eq_false_iff]
            intro hq
            simp only [Bool.and_eq_true, beq_iff_eq] at hq
            exact hne hq.1)
        rw [show ({ db with
            locations := db.locations.erase item,
            permissions := db.permissions.filter
              (fun p => p.http_location_id != item.path) } : DB).permissions =
          db.permissions.filter (fun p => p.http_location_id != item.path)
          from rfl, hfq]
  · intro hno
    have hfind : _find db.users (fun u => u.username == uuidv) = .ok none :=
      _find_ok_none (fun u hu => by
        rw [beq_eq_false_iff_ne]
        exact hno u hu)
    unfold UsersCollection.delete_item UsersCollection.find_item
    rw [hfind]
  · intro item hitem hiuname
    have hfind : _find db.users (fun u => u.username == uuidv) = .ok (some item) :=
      _find_ok_some hitem (by rw [beq_iff_eq]; exact hiuname)
        (username_filter_le_one huname uuidv)
    refine ⟨?_, ?_, ?_⟩
    · unfold UsersCollection.delete_item UsersCollection.find_item
      rw [hfind]
    · intro p hp
      exact bne_iff_ne.mp (List.mem_filter.mp hp).2
    · intro l
      have hnodup : db.users.Nodup := huname.imp (by
        intro a b h hab
        subst hab
        exact h rfl)
      have hnone : ∀ u ∈ db.users.erase item, u.username ≠ item.username := by
        intro u hu hueq
        have h1 : u ≠ item ∧ u ∈ db.users := (hnodup.mem_erase_iff).mp hu
        exact h1.1 (eq_of_pairwise_key User.username huname h1.2 hitem hueq)
      refine ⟨"User not found.", ?_⟩
      exact get_permission_user_none (_find_ok_none (fun u hu => by
        rw [beq_eq_false_iff_ne]
        exact hnone u hu))

/-- Witness for C8 on a concrete store. -/
theorem delete_item_cascade_witness :
    LocationsCollection.delete_item
      ⟨[⟨"/pub", "u1", false⟩], [⟨1, "uu", "a@b.c", true⟩], [⟨"/pub", 1⟩]⟩
      "ghost" =
      (.ok false,
       ⟨[⟨"/pub", "u1", false⟩], [⟨1, "uu", "a@b.c", true⟩], [⟨"/pub", 1⟩]⟩) ∧
    LocationsCollection.delete_item
      ⟨[⟨"/pub", "u1", false⟩], [⟨1, "uu", "a@b.c", true⟩], [⟨"/pub", 1⟩]⟩
      "u1" =
      (.ok true,
       { (⟨[⟨"/pub", "u1", false⟩], [⟨1, "uu", "a@b.c", true⟩],
           [⟨"/pub", 1⟩]⟩ : DB) with
         locations := [(⟨"/pub", "u1", false⟩ : Location)].erase
           ⟨"/pub", "u1", false⟩,
         permissions := [(⟨"/pub", 1⟩ : Permission)].filter
           (fun p => p.http_location_id != "/pub") }) ∧
    (∃ msg, Location.get_permission
      { (⟨[⟨"/pub", "u1", false⟩], [⟨1, "uu", "a@b.c", true⟩],
          [⟨"/pub", 1⟩]⟩ : DB) with
        locations := [(⟨"/pub", "u1", false⟩ : Location)].erase
          ⟨"/pub", "u1", false⟩,
        permissions := [(⟨"/pub", 1⟩ : Permission)].filter
          (fun p => p.http_location_id != "/pub") }
      ⟨"/pub", "u1", false⟩ "uu" = .error (.lookupError msg)) ∧
    UsersCollection.delete_item
      ⟨[⟨"/pub", "u1", false⟩], [⟨1, "uu", "a@b.c", true⟩], [⟨"/pub", 1⟩]⟩
      "uu" =
      (.ok true,
       { (⟨[⟨"/pub", "u1", false⟩], [⟨1, "uu", "a@b.c", true⟩],
           [⟨"/pub", 1⟩]⟩ : DB) with
         users := [(⟨1, "uu", "a@b.c", true⟩ : User)].erase
           ⟨1, "uu", "a@b.c", true⟩,
         permissions := [(⟨"/pub", 1⟩ : Permission)].filter
           (fun p => p.user_id != 1) }) := by
  have h := delete_item_cascade
    ⟨[⟨"/pub", "u1", false⟩], [⟨1, "uu", "a@b.c", true⟩], [⟨"/pub", 1⟩]⟩
    "u1" (by decide)
  have hu := delete_item_cascade
    ⟨[⟨"/pub", "u1", false⟩], [⟨1, "uu", "a@b.c", true⟩], [⟨"/pub", 1⟩]⟩
    "uu" (by decide)
  obtain ⟨hdel, _, hget⟩ := h.2.1 ⟨"/pub", "u1", false⟩ (by decide) (by decide)
  refine ⟨?_, hdel, hget "uu", ?_⟩
  · exact (delete_item_cascade
      ⟨[⟨"/pub", "u1", false⟩], [⟨1, "uu", "a@b.c", true⟩], [⟨"/pub", 1⟩]⟩
      "ghost" (by decide)).1 (by decide)
  · exact (hu.2.2.2 ⟨1, "uu", "a@b.c", true⟩ (by decide) (by decide)).1

/-! ### Uniqueness invariants across operations (C10) -/

theorem _find_ok_none_filter_nil {α : Type} {table : List α} {p : α → Bool}
    (h : _find table p = .ok none) : table.filter p = [] := by
  by_cases hle : (table.filter p).length ≤ 1
  · rw [_find_eq_head hle] at h
    exact List.head?_eq_none_iff.mp (Except.ok.inj h)
  · rw [_find_eq_error hle] at h
    cases h

/-- Case split for `LocationsCollection.create_item`: either the store is
unchanged, or the path was absent and exactly the new location row was
appended. -/
theorem locations_create_item_cases (db : DB) (fresh_uuid path : String) :
    (LocationsCollection.create_item db fresh_uuid path).2 = db ∨
    ((∀ l ∈ db.locations, l.path ≠ path) ∧
     (LocationsCollection.create_item db fresh_uuid path).2 =
       { db with locations := db.locations ++ [⟨path, fresh_uuid, false⟩] }) := by
  unfold LocationsCollection.create_item
  split
  · exact Or.inl rfl
  split
  · exact Or.inl rfl
  split
  · exact Or.inl rfl
  split
  · exact Or.inl rfl
  split
  · exact Or.inl rfl
  · exact Or.inl rfl
  · next heq =>
    split
    · exact Or.inl rfl
    · refine Or.inr ⟨?_, ?_⟩
      · intro l hl hlp
        have hnil := _find_ok_none_filter_nil heq
        have : l ∈ db.locations.filter (fun l => l.path == path) :=
          List.mem_filter.mpr ⟨hl, by rw [beq_iff_eq]; exact hlp⟩
        rw [hnil] at this
        cases this
      · simp [Location.save_fresh]

/-- Case split for `UsersCollection.create_item`. -/
theorem users_create_item_cases (db : DB) (fresh_uuid : String)
    (fresh_id : Nat) (email : String) :
    (UsersCollection.create_item db fresh_uuid fresh_id email).2 = db ∨
    (∃ enc, (∀ u ∈ db.users, u.email ≠ enc) ∧
     (UsersCollection.create_item db fresh_uuid fresh_id email).2 =
       { db with users := db.users ++ [⟨fresh_id, fresh_uuid, enc, true⟩] }) := by
  unfold UsersCollection.create_item
  split
  · exact Or.inl rfl
  · next enc henc =>
    split
    · exact Or.inl rfl
    · exact Or.inl rfl
    · next heq =>
      refine Or.inr ⟨enc, ?_, rfl⟩
      intro u hu hue
      have hnil := _find_ok_none_filter_nil heq
      have : u ∈ db.users.filter (fun u => u.email == enc) :=
        List.mem_filter.mpr ⟨hu, by rw [beq_iff_eq]; exact hue⟩
      rw [hnil] at this
      cases this

/-- Case split for `Location.grant_access`. -/
theorem grant_access_cases (db : DB) (l : Location) (user_uuid : String) :
    (Location.grant_access db l user_uuid).2 = db ∨
    (∃ uid, (∀ q ∈ db.permissions,
        ¬(q.http_location_id = l.path ∧ q.user_id = uid)) ∧
      (Location.grant_access db l user_uuid).2 =
        { db with permissions := db.permissions ++ [⟨l.path, uid⟩] }) := by
  unfold Location.grant_access
  split
  · exact Or.inl rfl
  · exact Or.inl rfl
  · next user _ =>
    split
    · exact Or.inl rfl
    · exact Or.inl rfl
    · next heq =>
      refine Or.inr ⟨user.id, ?_, rfl⟩
      intro q hq hqp
      have hnil := _find_ok_none_filter_nil heq
      have : q ∈ db.permissions.filter
          (fun p => p.http_location_id == l.path && p.user_id == user.id) :=
        List.mem_filter.mpr ⟨hq, by simp [hqp.1, hqp.2]⟩
      rw [hnil] at this
      cases this

/-- Case split for `Location.revoke_access`. -/
theorem revoke_access_cases (db : DB) (l : Location) (user_uuid : String) :
    (Location.revoke_access db l user_uuid).2 = db ∨
    ∃ q, (Location.revoke_access db l user_uuid).2 =
      { db with permissions := db.permissions.erase q } := by
  unfold Location.revoke_access
  split
  · exact Or.inl rfl
  · next q _ => exact Or.inr ⟨q, rfl⟩

/-- Case split for `UsersCollection.delete_item`. -/
theorem users_delete_item_cases (db : DB) (uuidv : String) :
    (UsersCollection.delete_item db uuidv).2 = db ∨
    ∃ item, (UsersCollection.delete_item db uuidv).2 =
      { db with
        users := db.users.erase item,
        permissions := db.permissions.filter (fun p => p.user_id != item.id) } := by
  unfold UsersCollection.delete_item
  split
  · exact Or.inl rfl
  · exact Or.inl rfl
  · next item _ => exact Or.inr ⟨item, rfl⟩

/-- Case split for `LocationsCollection.delete_item`. -/
theorem locations_delete_item_cases (db : DB) (uuidv : String) :
    (LocationsCollection.delete_item db uuidv).2 = db ∨
    ∃ item, (LocationsCollection.delete_item db uuidv).2 =
      { db with
        locations := db.locations.erase item,
        permissions := db.permissions.filter
          (fun p => p.http_location_id != item.path) } := by
  unfold LocationsCollection.delete_item
  split
  · exact Or.inl rfl
  · exact Or.inl rfl
  · next item _ => exact Or.inr ⟨item, rfl⟩

/-- Under the invariant, the location-by-path query matches at most one
row. -/
theorem location_path_filter_le_one {locs : List Location}
    (hlpath : locs.Pairwise (fun a b => a.path ≠ b.path)) (path : String) :
    (locs.filter (fun l => l.path == path)).length ≤ 1 := by
  apply filter_length_le_one Location.path hlpath
  intro a b ha hb
  simp only [beq_iff_eq] at ha hb
  rw [ha, hb]

/-- C10: on a well-formed store every query the operations issue through
`_find` matches at most one row — no operation can fail the
`assert count <= 1` — and every operation preserves the uniqueness
invariants (creations take the freshness of the generated identifiers as
hypotheses). -/
theorem wf_invariants_maintained (db : DB) (hwf : db.wf) :
    (∀ (l : Location) (user_uuid : String),
      ∃ b, Location.can_access db l user_uuid = .ok b) ∧
    (∀ (l : Location) (user_uuid : String),
      (Location.grant_access db l user_uuid).1 ≠ .error .assertionError) ∧
    (∀ (l : Location) (user_uuid : String),
      Location.get_permission db l user_uuid ≠ .error .assertionError) ∧
    (∀ (l : Location) (user_uuid : String),
      (Location.revoke_access db l user_uuid).1 ≠ .error .assertionError) ∧
    (∀ uuidv, ∃ r, UsersCollection.find_item db uuidv = .ok r) ∧
    (∀ uuidv, ∃ r, LocationsCollection.find_item db uuidv = .ok r) ∧
    (∀ email, ∃ r, UsersCollection.find_item_by_email db email = .ok r) ∧
    (∀ path, ∃ r, LocationsCollection.find_by_path db path = .ok r) ∧
    (∀ fresh_uuid fresh_id email,
      (UsersCollection.create_item db fresh_uuid fresh_id email).1 ≠
        .error .assertionError) ∧
    (∀ fresh_uuid path,
      (LocationsCollection.create_item db fresh_uuid path).1 ≠
        .error .assertionError) ∧
    (∀ uuidv, ∃ b, (UsersCollection.delete_item db uuidv).1 = .ok b) ∧
    (∀ uuidv, ∃ b, (LocationsCollection.delete_item db uuidv).1 = .ok b) ∧
    (∀ fresh_uuid fresh_id email,
      (∀ u ∈ db.users, u.id ≠ fresh_id) →
      (∀ u ∈ db.users, u.username ≠ fresh_uuid) →
      DB.wf (UsersCollection.create_item db fresh_uuid fresh_id email).2) ∧
    (∀ fresh_uuid path, (∀ l ∈ db.locations, l.uuid ≠ fresh_uuid) →
      DB.wf (LocationsCollection.create_item db fresh_uuid path).2) ∧
    (∀ (l : Location) (user_uuid : String),
      DB.wf (Location.grant_access db l user_uuid).2) ∧
    (∀ (l : Location) (user_uuid : String),
      DB.wf (Location.revoke_access db l user_uuid).2) ∧
    (∀ uuidv, DB.wf (UsersCollection.delete_item db uuidv).2) ∧
    (∀ uuidv, DB.wf (LocationsCollection.delete_item db uuidv).2) := by
  obtain ⟨hlpath, hluid, hid, huname, hemail, hperm⟩ := hwf
  have hwf' : db.wf := ⟨hlpath, hluid, hid, huname, hemail, hperm⟩
  have hget_shape : ∀ (l : Location) (user_uuid : String),
      (∃ msg, Location.get_permission db l user_uuid =
        .error (.lookupError msg)) ∨
      (∃ q, Location.get_permission db l user_uuid = .ok q) := by
    intro l user_uuid
    have h1 := _find_eq_head (username_filter_le_one huname user_uuid)
    cases hh : (db.users.filter (fun u => u.username == user_uuid)).head? with
    | none =>
      exact Or.inl ⟨_, get_permission_user_none (by rw [h1, hh])⟩
    | some u =>
      have hfu : _find db.users (fun v => v.username == user_uuid) =
          .ok (some u) := by rw [h1, hh]
      have h2 := _find_eq_head (pair_filter_le_one hperm l.path u.id)
      rw [get_permission_user_some hfu]
      cases hh2 : (db.permissions.filter
          (fun q => q.http_location_id == l.path && q.user_id == u.id)).head? with
      | none =>
        rw [show _find db.permissions
          (fun p => p.http_location_id == l.path && p.user_id == u.id) = .ok none
          from by rw [h2, hh2]]
        exact Or.inl ⟨_, rfl⟩
      | some q =>
        rw [show _find db.permissions
          (fun p => p.http_location_id == l.path && p.user_id == u.id) =
          .ok (some q) from by rw [h2, hh2]]
        exact Or.inr ⟨q, rfl⟩
  refine ⟨?_, ?_, ?_, ?_, ?_, ?_, ?_, ?_, ?_, ?_, ?_, ?_, ?_, ?_, ?_, ?_, ?_, ?_⟩
  · intro l user_uuid
    by_cases ho : l.open_access = true
    · exact ⟨true, by unfold Location.can_access; rw [if_pos ho]⟩
    · refine ⟨((db.permissions.filter (can_access_query db l user_uuid)).head?).isSome, ?_⟩
      unfold Location.can_access
      rw [if_neg ho, _find_eq_head (can_access_filter_le_one db l user_uuid hwf')]
  · intro l user_uuid
    have h1 := _find_eq_head (username_filter_le_one huname user_uuid)
    cases hh : (db.users.filter (fun u => u.username == user_uuid)).head? with
    | none =>
      rw [grant_access_user_none (by rw [h1, hh])]
      simp
    | some u =>
      have hfu : _find db.users (fun v => v.username == user_uuid) =
          .ok (some u) := by rw [h1, hh]
      have h2 := _find_eq_head (pair_filter_le_one hperm l.path u.id)
      rw [grant_access_user_some hfu]
      cases hh2 : (db.permissions.filter
          (fun q => q.http_location_id == l.path && q.user_id == u.id)).head? with
      | none =>
        rw [show _find db.permissions
          (fun p => p.http_location_id == l.path && p.user_id == u.id) = .ok none
          from by rw [h2, hh2]]
        simp
      | some q =>
        rw [show _find db.permissions
          (fun p => p.http_location_id == l.path && p.user_id == u.id) =
          .ok (some q) from by rw [h2, hh2]]
        simp
  · intro l user_uuid
    rcases hget_shape l user_uuid with ⟨msg, h⟩ | ⟨q, h⟩ <;> rw [h] <;> simp
  · intro l user_uuid
    rcases hget_shape l user_uuid with ⟨msg, h⟩ | ⟨q, h⟩ <;>
      rw [revoke_access_of_get, h] <;> simp
  · intro uuidv
    refine ⟨(db.users.filter (fun u => u.username == uuidv)).head?, ?_⟩
    unfold UsersCollection.find_item
    rw [_find_eq_head (username_filter_le_one huname uuidv)]
  · intro uuidv
    refine ⟨(db.locations.filter (fun l => l.uuid == uuidv)).head?, ?_⟩
    unfold LocationsCollection.find_item
    rw [_find_eq_head (location_uuid_filter_le_one hluid uuidv)]
  · intro email
    cases henc : _encode_email email with
    | error e =>
      exact ⟨none, by unfold UsersCollection.find_item_by_email; rw [henc]⟩
    | ok enc =>
      refine ⟨(db.users.filter (fun u => u.email == enc)).head?, ?_⟩
      rw [find_item_by_email_encoded henc,
        _find_eq_head (email_filter_le_one hemail enc)]
  · intro path
    refine ⟨(db.locations.filter (fun l => l.path == path)).head?, ?_⟩
    unfold LocationsCollection.find_by_path
    rw [_find_eq_head (location_path_filter_le_one hlpath path)]
  · intro fresh_uuid fresh_id email hcontra
    cases henc : _encode_email email with
    | error e =>
      unfold UsersCollection.create_item at hcontra
      rw [henc] at hcontra
      simp at hcontra
    | ok enc =>
      rw [users_create_item_encoded henc,
        _find_eq_head (email_filter_le_one hemail enc)] at hcontra
      cases hh : (db.users.filter (fun u => u.email == enc)).head? <;>
        rw [hh] at hcontra <;> simp at hcontra
  · intro fresh_uuid path hcontra
    unfold LocationsCollection.create_item at hcontra
    rw [_find_eq_head (location_path_filter_le_one hlpath path)] at hcontra
    cases hh : (db.locations.filter (fun l => l.path == path)).head? <;>
      rw [hh] at hcontra <;>
      repeat' first
        | (simp at hcontra)
        | split at hcontra
  · intro uuidv
    have h1 := _find_eq_head (username_filter_le_one huname uuidv)
    cases hh : (db.users.filter (fun u => u.username == uuidv)).head? with
    | none =>
      refine ⟨false, ?_⟩
      unfold UsersCollection.delete_item UsersCollection.find_item
      rw [show _find db.users (fun u => u.username == uuidv) = .ok none
        from by rw [h1, hh]]
    | some item =>
      refine ⟨true, ?_⟩
      unfold UsersCollection.delete_item UsersCollection.find_item
      rw [show _find db.users (fun u => u.username == uuidv) = .ok (some item)
        from by rw [h1, hh]]
  · intro uuidv
    have h1 := _find_eq_head (location_uuid_filter_le_one hluid uuidv)
    cases hh : (db.locations.filter (fun l => l.uuid == uuidv)).head? with
    | none =>
      refine ⟨false, ?_⟩
      unfold LocationsCollection.delete_item LocationsCollection.find_item
      rw [show _find db.locations (fun l => l.uuid == uuidv) = .ok none
        from by rw [h1, hh]]
    | some item =>
      refine ⟨true, ?_⟩
      unfold LocationsCollection.delete_item LocationsCollection.find_item
      rw [show _find db.locations (fun l => l.uuid == uuidv) = .ok (some item)
        from by rw [h1, hh]]
  · intro fresh_uuid fresh_id email hfid hfuuid
    rcases users_create_item_cases db fresh_uuid fresh_id email with h | ⟨enc, hno, h⟩
    · rw [h]; exact hwf'
    · rw [h]
      refine ⟨hlpath, hluid, ?_, ?_, ?_, hperm⟩
      · rw [List.pairwise_append]
        refine ⟨hid, by simp, ?_⟩
        intro a ha b hb
        rcases List.mem_singleton.mp hb with rfl
        exact hfid a ha
      · rw [List.pairwise_append]
        refine ⟨huname, by simp, ?_⟩
        intro a ha b hb
        rcases List.mem_singleton.mp hb with rfl
        exact hfuuid a ha
      · rw [List.pairwise_append]
        refine ⟨hemail, by simp, ?_⟩
        intro a ha b hb
        rcases List.mem_singleton.mp hb with rfl
        exact hno a ha
  · intro fresh_uuid path hfuuid
    rcases locations_create_item_cases db fresh_uuid path with h | ⟨hno, h⟩
    · rw [h]; exact hwf'
    · rw [h]
      refine ⟨?_, ?_, hid, huname, hemail, hperm⟩
      · rw [List.pairwise_append]
        refine ⟨hlpath, by simp, ?_⟩
        intro a ha b hb
        rcases List.mem_singleton.mp hb with rfl
        exact hno a ha
      · rw [List.pairwise_append]
        refine ⟨hluid, by simp, ?_⟩
        intro a ha b hb
        rcases List.mem_singleton.mp hb with rfl
        exact hfuuid a ha
  · intro l user_uuid
    rcases grant_access_cases db l user_uuid with h | ⟨uid, hno, h⟩
    · rw [h]; exact hwf'
    · rw [h]
      refine ⟨hlpath, hluid, hid, huname, hemail, ?_⟩
      rw [List.pairwise_append]
      refine ⟨hperm, by simp, ?_⟩
      intro a ha b hb
      rcases List.mem_singleton.mp hb with rfl
      by_cases hx : a.http_location_id = l.path
      · exact Or.inr (fun he => hno a ha ⟨hx, he⟩)
      · exact Or.inl hx
  · intro l user_uuid
    rcases revoke_access_cases db l user_uuid with h | ⟨q, h⟩
    · rw [h]; exact hwf'
    · rw [h]
      exact ⟨hlpath, hluid, hid, huname, hemail,
        hperm.sublist (List.erase_sublist q db.permissions)⟩
  · intro uuidv
    rcases users_delete_item_cases db uuidv with h | ⟨item, h⟩
    · rw [h]; exact hwf'
    · rw [h]
      exact ⟨hlpath, hluid,
        hid.sublist (List.erase_sublist item db.users),
        huname.sublist (List.erase_sublist item db.users),
        hemail.sublist (List.erase_sublist item db.users),
        hperm.sublist (List.filter_sublist db.permissions)⟩
  · intro uuidv
    rcases locations_delete_item_cases db uuidv with h | ⟨item, h⟩
    · rw [h]; exact hwf'
    · rw [h]
      exact ⟨hlpath.sublist (List.erase_sublist item db.locations),
        hluid.sublist (List.erase_sublist item db.locations),
        hid, huname, hemail,
        hperm.sublist (List.filter_sublist db.permissions)⟩

/-- Witness for C10 on a concrete store. -/
theorem wf_invariants_maintained_witness :
    (∃ b, Location.can_access
      ⟨[⟨"/pub", "u1", false⟩], [⟨1, "uu", "a@b.c", true⟩], [⟨"/pub", 1⟩]⟩
      ⟨"/pub", "u1", false⟩ "uu" = .ok b) ∧
    DB.wf (Location.grant_access
      ⟨[⟨"/pub", "u1", false⟩], [⟨1, "uu", "a@b.c", true⟩], [⟨"/pub", 1⟩]⟩
      ⟨"/pub", "u1", false⟩ "uu").2 ∧
    DB.wf (UsersCollection.create_item
      ⟨[⟨"/pub", "u1", false⟩], [⟨1, "uu", "a@b.c", true⟩], [⟨"/pub", 1⟩]⟩
      "f9" 9 "x@y.zz").2 ∧
    DB.wf (LocationsCollection.delete_item
      ⟨[⟨"/pub", "u1", false⟩], [⟨1, "uu", "a@b.c", true⟩], [⟨"/pub", 1⟩]⟩
      "u1").2 := by
  have h := wf_invariants_maintained
    ⟨[⟨"/pub", "u1", false⟩], [⟨1, "uu", "a@b.c", true⟩], [⟨"/pub", 1⟩]⟩
    (by decide)
  exact ⟨h.1 ⟨"/pub", "u1", false⟩ "uu",
    h.2.2.2.2.2.2.2.2.2.2.2.2.2.2.1 ⟨"/pub", "u1", false⟩ "uu",
    h.2.2.2.2.2.2.2.2.2.2.2.2.1 "f9" 9 "x@y.zz" (by decide) (by decide),
    h.2.2.2.2.2.2.2.2.2.2.2.2.2.2.2.2.2 "u1"⟩
